import Mathlib

/-!
Verification of the ccost ingestion-and-aggregation pipeline.

This file shallowly embeds the core of the program (src/data_loader.rs,
src/pricing.rs, src/time_utils.rs) into Lean and proves properties of the
embedding.

Modelling conventions:
* Rust `u64` token counts are modelled as `Nat` (the program only adds
  non-negative counts; overflow is out of scope for every claim).
* Rust `f64` monetary costs are modelled as `ℚ`: every claim is about which
  arithmetic expression is computed, not about rounding of IEEE operations.
* JSON decoding of one line (`sonic_rs::from_str::<UsageData>`) is modelled by
  giving each line directly as `Option UsageData` (`none` = malformed line;
  blank lines are equivalent to malformed ones: both yield no record).
* `chrono` timestamp handling is external to the core: RFC3339 parsing is a
  parameter `parseTs : String → Option Int` (instants are linearly ordered)
  and `format_date` with the active timezone is a parameter
  `fmtDate : String → Option String`.
* A Rust `HashMap`/`HashSet` is modelled as an insertion-ordered association
  list (resp. membership list); its unspecified iteration order at the points
  the code iterates a map (`for (group_key, aggregate) in aggregates`,
  `model_breakdowns.into_iter()`) is modelled by explicit reordering
  parameters `iterA`/`iterB`, quantified over all permutation-preserving
  functions.
* Rust `sort_by` is a stable sort; for the total preorders used by the code
  the stable sorted result is unique, so it is modelled by stable insertion
  sort (`stableSortBy`).
* `rayon` parallel maps collect results in input order and the batched
  processing concatenates batches in order, so both are modelled as plain
  sequential maps; a per-file I/O failure is modelled by `Except String`.
* Byte-level string operations of the source (`date_str[..7]`,
  `split_once('\u0000')`) are modelled at the level of `Char` lists; for the
  ASCII date/key strings the program manipulates these coincide.
-/

namespace Ccost

/-! ## Data model (src/pricing.rs, src/data_loader.rs) -/

/-- Token counts of one usage record (struct `UsageTokens`, src/pricing.rs). -/
structure UsageTokens where
  input_tokens : Nat
  output_tokens : Nat
  cache_creation_input_tokens : Nat
  cache_read_input_tokens : Nat
  deriving DecidableEq

/-- Per-model pricing entry (struct `LiteLLMModelPricing`, src/pricing.rs). -/
structure LiteLLMModelPricing where
  input_cost_per_token : Option ℚ
  output_cost_per_token : Option ℚ
  cache_creation_input_token_cost : Option ℚ
  cache_read_input_token_cost : Option ℚ
  input_cost_per_token_above_200k_tokens : Option ℚ
  output_cost_per_token_above_200k_tokens : Option ℚ
  cache_creation_input_token_cost_above_200k_tokens : Option ℚ
  cache_read_input_token_cost_above_200k_tokens : Option ℚ
  max_input_tokens : Option Nat
  deriving DecidableEq

/-- Cost computation mode (enum `CostMode`, src/pricing.rs). -/
inductive CostMode where
  | Auto
  | Calculate
  | Display
  deriving DecidableEq

/-- Sort order for result lists (enum `SortOrder`, src/time_utils.rs). -/
inductive SortOrder where
  | Asc
  | Desc
  deriving DecidableEq

/-- `DEFAULT_TIERED_THRESHOLD` from src/pricing.rs. -/
def DEFAULT_TIERED_THRESHOLD : Nat := 200000

/-- The closure `calculate_tiered_cost` inside
`PricingFetcher::calculate_cost_from_pricing` (src/pricing.rs lines 130-145). -/
def calculate_tiered_cost (total : Nat) (base tiered : Option ℚ)
    (threshold : Nat) : ℚ :=
  if total = 0 then 0
  else if threshold < total ∧ tiered.isSome then
    let below : ℚ := (min total threshold : Nat)
    let above : ℚ := (total - threshold : Nat)
    let cost := above * tiered.getD 0
    match base with
    | some b => cost + below * b
    | none => cost
  else
    base.getD 0 * (total : ℚ)

/-- `PricingFetcher::calculate_cost_from_pricing` (src/pricing.rs lines 125-173):
sum of the four per-category tiered costs. -/
def calculate_cost_from_pricing (tokens : UsageTokens)
    (pricing : LiteLLMModelPricing) : ℚ :=
  let input_cost := calculate_tiered_cost tokens.input_tokens
    pricing.input_cost_per_token
    pricing.input_cost_per_token_above_200k_tokens DEFAULT_TIERED_THRESHOLD
  let output_cost := calculate_tiered_cost tokens.output_tokens
    pricing.output_cost_per_token
    pricing.output_cost_per_token_above_200k_tokens DEFAULT_TIERED_THRESHOLD
  let cache_creation_cost := calculate_tiered_cost tokens.cache_creation_input_tokens
    pricing.cache_creation_input_token_cost
    pricing.cache_creation_input_token_cost_above_200k_tokens DEFAULT_TIERED_THRESHOLD
  let cache_read_cost := calculate_tiered_cost tokens.cache_read_input_tokens
    pricing.cache_read_input_token_cost
    pricing.cache_read_input_token_cost_above_200k_tokens DEFAULT_TIERED_THRESHOLD
  input_cost + output_cost + cache_creation_cost + cache_read_cost

/-- The cost formula exactly as the specification words it: the tiered rate
applies only when the count strictly exceeds the threshold and a tiered rate
exists; then cost is min(count, threshold) × base + (count − threshold) ×
tiered, otherwise count × base, an absent rate meaning 0. -/
def specCategoryCost (count : Nat) (base tiered : Option ℚ)
    (threshold : Nat) : ℚ :=
  if threshold < count ∧ tiered.isSome then
    ((min count threshold : Nat) : ℚ) * base.getD 0
      + ((count - threshold : Nat) : ℚ) * tiered.getD 0
  else
    (count : ℚ) * base.getD 0

theorem calculate_tiered_cost_eq_spec (total : Nat) (base tiered : Option ℚ)
    (threshold : Nat) :
    calculate_tiered_cost total base tiered threshold =
      specCategoryCost total base tiered threshold := by
  unfold calculate_tiered_cost specCategoryCost
  by_cases h0 : total = 0
  · subst h0
    simp [Nat.not_lt.mpr (Nat.zero_le threshold)]
  · simp only [if_neg h0]
    by_cases h : threshold < total ∧ tiered.isSome
    · rw [if_pos h, if_pos h]
      cases base with
      | some b => simp only [Option.getD_some]; push_cast; ring
      | none => simp
    · rw [if_neg h, if_neg h]
      ring

/-- Claim C3: for every token category count and pricing entry, cost
computation applies the tiered rate only when the count strictly exceeds the
200,000 threshold and a tiered rate exists — then cost =
min(count, threshold) × base rate + (count − threshold) × tiered rate;
otherwise cost = count × base rate (absent base rate meaning 0). A count of
exactly 200,000 uses only the base rate and a count of 200,001 applies the
tiered rate to exactly 1 token. -/
theorem claim_C3_tiered_pricing (tokens : UsageTokens)
    (pricing : LiteLLMModelPricing) (total : Nat) (base tiered : Option ℚ)
    (t : ℚ) :
    calculate_tiered_cost total base tiered DEFAULT_TIERED_THRESHOLD =
      specCategoryCost total base tiered DEFAULT_TIERED_THRESHOLD
    ∧ calculate_cost_from_pricing tokens pricing =
        specCategoryCost tokens.input_tokens pricing.input_cost_per_token
          pricing.input_cost_per_token_above_200k_tokens DEFAULT_TIERED_THRESHOLD
        + specCategoryCost tokens.output_tokens pricing.output_cost_per_token
          pricing.output_cost_per_token_above_200k_tokens DEFAULT_TIERED_THRESHOLD
        + specCategoryCost tokens.cache_creation_input_tokens
          pricing.cache_creation_input_token_cost
          pricing.cache_creation_input_token_cost_above_200k_tokens
          DEFAULT_TIERED_THRESHOLD
        + specCategoryCost tokens.cache_read_input_tokens
          pricing.cache_read_input_token_cost
          pricing.cache_read_input_token_cost_above_200k_tokens
          DEFAULT_TIERED_THRESHOLD
    ∧ calculate_tiered_cost 200000 base tiered DEFAULT_TIERED_THRESHOLD =
        200000 * base.getD 0
    ∧ calculate_tiered_cost 200001 base (some t) DEFAULT_TIERED_THRESHOLD =
        200000 * base.getD 0 + t := by
  refine ⟨calculate_tiered_cost_eq_spec _ _ _ _, ?_, ?_, ?_⟩
  · unfold calculate_cost_from_pricing
    rw [calculate_tiered_cost_eq_spec, calculate_tiered_cost_eq_spec,
      calculate_tiered_cost_eq_spec, calculate_tiered_cost_eq_spec]
  · rw [calculate_tiered_cost_eq_spec]
    unfold specCategoryCost DEFAULT_TIERED_THRESHOLD
    norm_num
  · rw [calculate_tiered_cost_eq_spec]
    unfold specCategoryCost DEFAULT_TIERED_THRESHOLD
    norm_num

/-! ## Time utilities (src/time_utils.rs) -/

/-- The date normalisation `get_date(item).replace('-', "")` used by
`filter_by_date_range` (src/time_utils.rs line 108). -/
def replaceDashes (s : String) : String :=
  ⟨s.data.filter (fun c => c ≠ '-')⟩

/-- `filter_by_date_range` (src/time_utils.rs lines 92-122). -/
def filter_by_date_range {α : Type} (items : List α) (get_date : α → String)
    (sinceOpt untilOpt : Option String) : List α :=
  if sinceOpt.isNone && untilOpt.isNone then items
  else items.filter fun item =>
    let date_str := replaceDashes (get_date item)
    (match sinceOpt with
     | some s => !(decide (date_str < s))
     | none => true)
    && (match untilOpt with
        | some u => !(decide (u < date_str))
        | none => true)

/-- Stable insertion of an element into a list sorted by `le`: the element is
placed before the first entry it compares `le` to, hence before equal entries
already present when inserting in input order.  For the total preorders used
by the program this reproduces Rust's stable `sort_by`. -/
def insertLe {α : Type} (le : α → α → Bool) (x : α) : List α → List α
  | [] => [x]
  | y :: ys => if le x y then x :: y :: ys else y :: insertLe le x ys

/-- Stable sort by a boolean comparator; models Rust `sort_by` with
`le a b = (cmp a b ≠ Ordering.Greater)`. -/
def stableSortBy {α : Type} (le : α → α → Bool) : List α → List α
  | [] => []
  | x :: xs => insertLe le x (stableSortBy le xs)

/-- `sort_by_date` (src/time_utils.rs lines 124-133): ascending or descending
lexicographic comparison of the date strings. -/
def sort_by_date {α : Type} (items : List α) (get_date : α → String)
    (order : SortOrder) : List α :=
  stableSortBy
    (fun a b =>
      match order with
      | SortOrder.Asc => decide (get_date a ≤ get_date b)
      | SortOrder.Desc => decide (get_date b ≤ get_date a))
    items

/-- `format_month` (src/time_utils.rs lines 45-51): the first 7 characters of
the date string, or `none` when the string is shorter. -/
def format_month (date_str : String) : Option String :=
  if 7 ≤ date_str.data.length then some ⟨date_str.data.take 7⟩ else none

/-- Claim C7: the date-range filter is inclusive — an entry whose normalized
YYYYMMDD date equals `since` or `until` is retained, an entry strictly below
`since` or strictly above `until` is excluded, and with both bounds absent
every entry is retained. -/
theorem claim_C7_inclusive_date_filter {α : Type} (items : List α)
    (get_date : α → String) (sinceOpt untilOpt : Option String) :
    filter_by_date_range items get_date none none = items
    ∧ ∀ x, x ∈ filter_by_date_range items get_date sinceOpt untilOpt ↔
        (x ∈ items
          ∧ (∀ s, sinceOpt = some s → ¬ replaceDashes (get_date x) < s)
          ∧ (∀ u, untilOpt = some u → ¬ u < replaceDashes (get_date x))) := by
  constructor
  · simp [filter_by_date_range]
  · intro x
    unfold filter_by_date_range
    by_cases hboth : sinceOpt.isNone && untilOpt.isNone
    · rw [if_pos hboth]
      have h1 : sinceOpt = none := by cases sinceOpt <;> simp_all
      have h2 : untilOpt = none := by cases untilOpt <;> simp_all
      subst h1; subst h2; simp
    · rw [if_neg hboth]
      rw [List.mem_filter]
      cases sinceOpt with
      | none =>
        cases untilOpt with
        | none => simp at hboth
        | some u => simp
      | some s =>
        cases untilOpt with
        | none => simp
        | some u => simp [and_assoc]

/-- Closed instance of claim C7 at a concrete input. -/
theorem claim_C7_inclusive_date_filter_witness :
    filter_by_date_range ["2024-01-01", "2024-01-15", "2024-01-31"]
        (fun s => s) none none = ["2024-01-01", "2024-01-15", "2024-01-31"]
    ∧ ∀ x, x ∈ filter_by_date_range ["2024-01-01", "2024-01-15", "2024-01-31"]
        (fun s => s) (some "20240101") (some "20240115") ↔
        (x ∈ ["2024-01-01", "2024-01-15", "2024-01-31"]
          ∧ (∀ s, (some "20240101" : Option String) = some s →
              ¬ replaceDashes x < s)
          ∧ (∀ u, (some "20240115" : Option String) = some u →
              ¬ u < replaceDashes x)) :=
  claim_C7_inclusive_date_filter ["2024-01-01", "2024-01-15", "2024-01-31"]
    (fun s => s) (some "20240101") (some "20240115")

/-! ## Project extraction (src/data_loader.rs lines 295-311) -/

/-- `CLAUDE_PROJECTS_DIR_NAME` (src/data_loader.rs line 15). -/
def CLAUDE_PROJECTS_DIR_NAME : String := "projects"

/-- `extract_project_from_path` (src/data_loader.rs lines 295-311), over the
list of path components: the component immediately after the first component
equal to `"projects"`.  Rust's `value.trim().is_empty()` test holds exactly
when every character of the component is whitespace, which is how it is
modelled here. -/
def extract_project_from_path : List String → String
  | [] => "unknown"
  | c :: rest =>
    if c = CLAUDE_PROJECTS_DIR_NAME then
      match rest with
      | [] => "unknown"
      | v :: _ => if v.data.all Char.isWhitespace then "unknown" else v
    else extract_project_from_path rest

/-- Claim C9: the project name is the path component immediately following the
first component equal to "projects"; if no such component exists, or the
following component is empty or whitespace-only, the project is "unknown". -/
theorem claim_C9_project_from_path (l pre post : List String)
    (hl : CLAUDE_PROJECTS_DIR_NAME ∉ l)
    (hpre : CLAUDE_PROJECTS_DIR_NAME ∉ pre) :
    extract_project_from_path l = "unknown"
    ∧ extract_project_from_path (pre ++ CLAUDE_PROJECTS_DIR_NAME :: post) =
        (match post with
         | [] => "unknown"
         | v :: _ => if v.data.all Char.isWhitespace then "unknown" else v) := by
  constructor
  · induction l with
    | nil => rfl
    | cons c rest ih =>
      have hc : c ≠ CLAUDE_PROJECTS_DIR_NAME := fun h => hl (h ▸ List.mem_cons_self c rest)
      have hrest : CLAUDE_PROJECTS_DIR_NAME ∉ rest := fun h => hl (List.mem_cons_of_mem c h)
      simp only [extract_project_from_path, if_neg hc]
      exact ih hrest
  · induction pre with
    | nil =>
      rw [List.nil_append]
      simp only [extract_project_from_path, if_true, if_pos trivial]
    | cons c rest ih =>
      have hc : c ≠ CLAUDE_PROJECTS_DIR_NAME := fun h => hpre (h ▸ List.mem_cons_self c rest)
      have hrest : CLAUDE_PROJECTS_DIR_NAME ∉ rest := fun h => hpre (List.mem_cons_of_mem c h)
      rw [List.cons_append]
      simp only [extract_project_from_path, if_neg hc]
      exact ih hrest

/-! ## Stable sort lemmas -/

theorem insertLe_perm {α : Type} (le : α → α → Bool) (x : α) (l : List α) :
    (insertLe le x l).Perm (x :: l) := by
  induction l with
  | nil => exact List.Perm.refl _
  | cons y ys ih =>
    rw [insertLe]
    by_cases h : le x y
    · rw [if_pos h]
    · rw [if_neg h]
      exact ((ih.cons y).trans (List.Perm.swap x y ys))

theorem stableSortBy_perm {α : Type} (le : α → α → Bool) (l : List α) :
    (stableSortBy le l).Perm l := by
  induction l with
  | nil => exact List.Perm.refl _
  | cons x xs ih =>
    exact (insertLe_perm le x (stableSortBy le xs)).trans (ih.cons x)

theorem insertLe_pairwise {α : Type} (le : α → α → Bool)
    (htot : ∀ a b, le a b = true ∨ le b a = true)
    (htrans : ∀ a b c, le a b = true → le b c = true → le a c = true)
    (x : α) (l : List α) (h : l.Pairwise (fun a b => le a b = true)) :
    (insertLe le x l).Pairwise (fun a b => le a b = true) := by
  induction l with
  | nil => simp [insertLe]
  | cons y ys ih =>
    rcases List.pairwise_cons.mp h with ⟨hy, hys⟩
    rw [insertLe]
    by_cases hxy : le x y
    · rw [if_pos hxy]
      refine List.pairwise_cons.mpr ⟨?_, h⟩
      intro z hz
      rcases List.mem_cons.mp hz with rfl | hz
      · exact hxy
      · exact htrans x y z hxy (hy z hz)
    · rw [if_neg hxy]
      refine List.pairwise_cons.mpr ⟨?_, ih hys⟩
      intro z hz
      have hz' := (insertLe_perm le x ys).mem_iff.mp hz
      rcases List.mem_cons.mp hz' with rfl | hz'
      · rcases htot z y with hc | hc
        · exact absurd hc hxy
        · exact hc
      · exact hy z hz'

theorem stableSortBy_pairwise {α : Type} (le : α → α → Bool)
    (htot : ∀ a b, le a b = true ∨ le b a = true)
    (htrans : ∀ a b c, le a b = true → le b c = true → le a c = true)
    (l : List α) :
    (stableSortBy le l).Pairwise (fun a b => le a b = true) := by
  induction l with
  | nil => simp [stableSortBy]
  | cons x xs ih => exact insertLe_pairwise le htot htrans x _ ih

theorem filter_insertLe_neg {α : Type} (le : α → α → Bool) (p : α → Bool)
    (x : α) (l : List α) (h : p x = false) :
    (insertLe le x l).filter p = l.filter p := by
  induction l with
  | nil => simp [insertLe, h]
  | cons y ys ih =>
    rw [insertLe]
    by_cases hxy : le x y
    · rw [if_pos hxy, List.filter_cons, List.filter_cons, h]
      simp
    · rw [if_neg hxy, List.filter_cons, List.filter_cons, ih]

theorem filter_insertLe_pos {α : Type} (le : α → α → Bool) (p : α → Bool)
    (x : α) (l : List α) (h : p x = true)
    (hle : ∀ y ∈ l, le x y = p y) :
    (insertLe le x l).filter p = x :: l.filter p := by
  induction l with
  | nil => simp [insertLe, h]
  | cons y ys ih =>
    rw [insertLe]
    by_cases hxy : le x y
    · rw [if_pos hxy, List.filter_cons, h]
      simp
    · rw [if_neg hxy]
      have hy : p y = false := by
        have := hle y (List.mem_cons_self y ys)
        rw [← this]
        exact Bool.eq_false_iff.mpr hxy
      rw [List.filter_cons, hy, List.filter_cons, hy]
      simp only [Bool.false_eq_true, if_false]
      exact ih (fun z hz => hle z (List.mem_cons_of_mem y hz))

/-- Stability of the sort for a class of tied elements: if `le x ·` agrees
with the class membership predicate `p` for every `x` in the class, the sort
keeps the relative input order of the class's elements. -/
theorem stableSortBy_filter {α : Type} (le : α → α → Bool) (p : α → Bool)
    (l : List α)
    (hstable : ∀ x ∈ l, p x = true → ∀ y ∈ l, le x y = p y) :
    (stableSortBy le l).filter p = l.filter p := by
  induction l with
  | nil => rfl
  | cons x xs ih =>
    rw [stableSortBy]
    have ihx := ih (fun z hz hp y hy =>
      hstable z (List.mem_cons_of_mem x hz) hp y (List.mem_cons_of_mem x hy))
    by_cases hpx : p x
    · rw [filter_insertLe_pos le p x _ hpx, List.filter_cons, hpx, ihx]
      · simp
      · intro y hy
        have hy' := (stableSortBy_perm le xs).mem_iff.mp hy
        exact hstable x (List.mem_cons_self x xs) hpx y (List.mem_cons_of_mem x hy')
    · have hpx' : p x = false := Bool.eq_false_iff.mpr hpx
      rw [filter_insertLe_neg le p x _ hpx', List.filter_cons, hpx', ihx]
      simp

/-- Two sorted lists that are permutations of each other and whose elements
admit no nontrivial ties are equal: the stable sorted order is unique. -/
theorem sorted_perm_eq {α : Type} (le : α → α → Bool) :
    ∀ (l₁ l₂ : List α), l₁.Perm l₂ →
    l₁.Pairwise (fun a b => le a b = true) →
    l₂.Pairwise (fun a b => le a b = true) →
    (∀ a ∈ l₁, ∀ b ∈ l₁, le a b = true → le b a = true → a = b) →
    l₁ = l₂
  | [], l₂, hperm, _, _, _ => (hperm.nil_eq).symm ▸ rfl
  | a :: t₁, [], hperm, _, _, _ => absurd hperm.symm.nil_eq (by simp)
  | a :: t₁, b :: t₂, hperm, hs₁, hs₂, hanti => by
    rcases List.pairwise_cons.mp hs₁ with ⟨ha, ht₁⟩
    rcases List.pairwise_cons.mp hs₂ with ⟨hb, ht₂⟩
    by_cases hab : a = b
    · subst hab
      have htp : t₁.Perm t₂ := hperm.cons_inv
      have : t₁ = t₂ := sorted_perm_eq le t₁ t₂ htp ht₁ ht₂
        (fun x hx y hy h1 h2 =>
          hanti x (List.mem_cons_of_mem a hx) y (List.mem_cons_of_mem a hy) h1 h2)
      rw [this]
    · exfalso
      have hamem : a ∈ b :: t₂ := hperm.subset (List.mem_cons_self a t₁)
      have hat₂ : a ∈ t₂ := by
        rcases List.mem_cons.mp hamem with h | h
        · exact absurd h hab
        · exact h
      have hbmem : b ∈ a :: t₁ := hperm.symm.subset (List.mem_cons_self b t₂)
      have hbt₁ : b ∈ t₁ := by
        rcases List.mem_cons.mp hbmem with h | h
        · exact absurd h.symm hab
        · exact h
      exact hab (hanti a (List.mem_cons_self a t₁) b (List.mem_cons_of_mem a hbt₁)
        (ha b hbt₁) (hb a hat₂))

/-! ## Parsed line model (structs in src/data_loader.rs lines 28-57) -/

/-- Struct `UsageMessageUsage` (src/data_loader.rs lines 29-34). -/
structure UsageMessageUsage where
  input_tokens : Option Nat
  output_tokens : Option Nat
  cache_creation_input_tokens : Option Nat
  cache_read_input_tokens : Option Nat
  deriving DecidableEq

/-- Struct `UsageMessage` (src/data_loader.rs lines 37-41). -/
structure UsageMessage where
  usage : Option UsageMessageUsage
  model : Option String
  id : Option String
  deriving DecidableEq

/-- Struct `UsageRequest` (src/data_loader.rs lines 44-46). -/
structure UsageRequest where
  id : Option String
  deriving DecidableEq

/-- Struct `UsageData` (src/data_loader.rs lines 49-57). -/
structure UsageData where
  timestamp : Option String
  message : Option UsageMessage
  cost_usd : Option ℚ
  request_id : Option String
  request : Option UsageRequest
  deriving DecidableEq

/-- One discovered usage file: its path components and its contents.
`content = none` models a file that cannot be opened; each line is the result
of JSON-decoding it (`none` = malformed or blank line, skipped). -/
structure FileData where
  path : List String
  content : Option (List (Option UsageData))
  deriving DecidableEq

/-! ## Earliest-timestamp scan and chronological ordering
(src/data_loader.rs lines 337-388) -/

/-- One loop iteration of `get_earliest_timestamp`
(src/data_loader.rs lines 342-367). -/
def earliestStep (parseTs : String → Option Int) (earliest : Option Int)
    (line : Option UsageData) : Option Int :=
  match line with
  | none => earliest
  | some parsed =>
    match parsed.timestamp.bind parseTs with
    | none => earliest
    | some utc =>
      match earliest with
      | some existing => if existing ≤ utc then some existing else some utc
      | none => some utc

/-- `get_earliest_timestamp` (src/data_loader.rs lines 337-369): a file that
cannot be opened yields `none` (`File::open(file_path).ok()?`); otherwise the
minimum valid timestamp over the lines. -/
def get_earliest_timestamp (parseTs : String → Option Int)
    (f : FileData) : Option Int :=
  match f.content with
  | none => none
  | some lines => lines.foldl (earliestStep parseTs) none

/-- The valid timestamps of a file's well-formed lines (specification view). -/
def validTimestamps (parseTs : String → Option Int) (f : FileData) : List Int :=
  (f.content.getD []).filterMap
    (fun line => line.bind (fun d => d.timestamp.bind parseTs))

/-- The comparator of `sort_files_by_timestamp`
(src/data_loader.rs lines 380-385), as `cmp a b ≠ Ordering::Greater`. -/
def optTsLe : Option Int → Option Int → Bool
  | some x, some y => decide (x ≤ y)
  | some _, none => true
  | none, some _ => false
  | none, none => true

/-- `sort_files_by_timestamp` (src/data_loader.rs lines 371-388). -/
def sort_files_by_timestamp (parseTs : String → Option Int)
    (files : List FileData) : List FileData :=
  (stableSortBy (fun a b => optTsLe a.2 b.2)
    (files.map (fun file => (file, get_earliest_timestamp parseTs file)))).map
    Prod.fst

/-- Minimum-accumulator step equivalent to the loop body of
`get_earliest_timestamp`. -/
def stepMin (a : Option Int) (t : Int) : Option Int :=
  some (min (a.getD t) t)

theorem foldl_earliestStep_eq (parseTs : String → Option Int)
    (lines : List (Option UsageData)) : ∀ acc,
    lines.foldl (earliestStep parseTs) acc =
      (lines.filterMap
        (fun line => line.bind (fun d => d.timestamp.bind parseTs))).foldl
        stepMin acc := by
  induction lines with
  | nil => intro acc; rfl
  | cons line rest ih =>
    intro acc
    cases line with
    | none =>
      rw [List.foldl_cons,
        List.filterMap_cons_none (by rfl)]
      exact ih acc
    | some parsed =>
      cases hts : parsed.timestamp.bind parseTs with
      | none =>
        rw [List.foldl_cons, List.filterMap_cons_none (by simp [hts])]
        have hstep : earliestStep parseTs acc (some parsed) = acc := by
          simp [earliestStep, hts]
        rw [hstep]
        exact ih acc
      | some utc =>
        have hfm : (some parsed :: rest).filterMap
            (fun line => line.bind (fun d => d.timestamp.bind parseTs)) =
            utc :: rest.filterMap
              (fun line => line.bind (fun d => d.timestamp.bind parseTs)) := by
          simp [List.filterMap_cons, hts]
        rw [List.foldl_cons, hfm, List.foldl_cons, ih]
        congr 1
        cases acc with
        | none => simp [earliestStep, hts, stepMin]
        | some existing =>
          simp only [earliestStep, hts, stepMin, Option.getD_some]
          rw [min_def]
          by_cases h : existing ≤ utc
          · rw [if_pos h, if_pos h]
          · rw [if_neg h, if_neg h]

theorem foldl_stepMin_some (l : List Int) : ∀ m : Int,
    l.foldl stepMin (some m) = some (l.foldl min m) := by
  induction l with
  | nil => intro m; rfl
  | cons t ts ih =>
    intro m
    rw [List.foldl_cons, List.foldl_cons]
    show ts.foldl stepMin (some (min m t)) = _
    exact ih (min m t)

theorem foldl_min_mem : ∀ (ts : List Int) (t : Int), ts.foldl min t ∈ t :: ts := by
  intro ts
  induction ts with
  | nil => intro t; simp
  | cons x rest ih =>
    intro t
    rw [List.foldl_cons]
    have h := ih (min t x)
    rcases List.mem_cons.mp h with h1 | h1
    · rcases min_choice t x with hc | hc
      · rw [h1, hc]
        exact List.mem_cons_self t (x :: rest)
      · rw [h1, hc]
        exact List.mem_cons_of_mem t (List.mem_cons_self x rest)
    · exact List.mem_cons_of_mem t (List.mem_cons_of_mem x h1)

theorem foldl_min_le_init : ∀ (ts : List Int) (t : Int), ts.foldl min t ≤ t := by
  intro ts
  induction ts with
  | nil => intro t; exact le_refl t
  | cons x rest ih =>
    intro t
    rw [List.foldl_cons]
    exact le_trans (ih (min t x)) (min_le_left t x)

theorem foldl_min_le : ∀ (ts : List Int) (t x : Int), x ∈ t :: ts →
    ts.foldl min t ≤ x := by
  intro ts
  induction ts with
  | nil =>
    intro t x hx
    rcases List.mem_cons.mp hx with rfl | h
    · exact le_refl x
    · exact absurd h (List.not_mem_nil x)
  | cons y rest ih =>
    intro t x hx
    rw [List.foldl_cons]
    rcases List.mem_cons.mp hx with rfl | hx
    · exact le_trans (foldl_min_le_init rest (min x y)) (min_le_left x y)
    · rcases List.mem_cons.mp hx with rfl | hx
      · exact le_trans (foldl_min_le_init rest (min t x)) (min_le_right t x)
      · exact ih (min t y) x (List.mem_cons_of_mem _ hx)

/-- `get_earliest_timestamp` computes the minimum of the valid timestamps. -/
theorem get_earliest_timestamp_eq_min (parseTs : String → Option Int)
    (f : FileData) :
    get_earliest_timestamp parseTs f =
      match validTimestamps parseTs f with
      | [] => none
      | t :: ts => some (ts.foldl min t) := by
  unfold get_earliest_timestamp validTimestamps
  cases f.content with
  | none => rfl
  | some lines =>
    simp only [Option.getD_some]
    rw [foldl_earliestStep_eq]
    cases lines.filterMap (fun line => line.bind (fun d => d.timestamp.bind parseTs)) with
    | nil => rfl
    | cons t ts =>
      rw [List.foldl_cons]
      show ts.foldl stepMin (some (min t t)) = _
      rw [min_self, foldl_stepMin_some]

theorem optTsLe_total (a b : Option Int) :
    optTsLe a b = true ∨ optTsLe b a = true := by
  cases a with
  | none => cases b <;> simp [optTsLe]
  | some x =>
    cases b with
    | none => simp [optTsLe]
    | some y =>
      rcases le_total x y with h | h
      · exact Or.inl (by simpa [optTsLe] using h)
      · exact Or.inr (by simpa [optTsLe] using h)

theorem optTsLe_trans (a b c : Option Int) :
    optTsLe a b = true → optTsLe b c = true → optTsLe a c = true := by
  cases a <;> cases b <;> cases c <;> simp [optTsLe]
  exact fun h1 h2 => le_trans h1 h2

/-- Claim C6: the chronological orderer sorts files ascending by their minimum
valid timestamp (`get_earliest_timestamp`, malformed lines ignored); files
with no valid timestamp come after all files that have one and keep their
relative input order. -/
theorem claim_C6_chronological_order (parseTs : String → Option Int)
    (files : List FileData) :
    (sort_files_by_timestamp parseTs files).Perm files
    ∧ (sort_files_by_timestamp parseTs files).Pairwise
        (fun f g => optTsLe (get_earliest_timestamp parseTs f)
          (get_earliest_timestamp parseTs g) = true)
    ∧ (sort_files_by_timestamp parseTs files).Pairwise
        (fun f g => get_earliest_timestamp parseTs f = none →
          get_earliest_timestamp parseTs g = none)
    ∧ (sort_files_by_timestamp parseTs files).filter
        (fun f => (get_earliest_timestamp parseTs f).isNone)
      = files.filter (fun f => (get_earliest_timestamp parseTs f).isNone)
    ∧ ∀ f : FileData,
        (∀ m : Int, get_earliest_timestamp parseTs f = some m ↔
          (m ∈ validTimestamps parseTs f ∧
            ∀ t ∈ validTimestamps parseTs f, m ≤ t))
        ∧ (get_earliest_timestamp parseTs f = none ↔
            validTimestamps parseTs f = []) := by
  have hspperm :
      (stableSortBy (fun a b : FileData × Option Int => optTsLe a.2 b.2)
        (files.map (fun file => (file, get_earliest_timestamp parseTs file)))).Perm
        (files.map (fun file => (file, get_earliest_timestamp parseTs file))) :=
    stableSortBy_perm _ _
  have hmemfact : ∀ q ∈ stableSortBy
      (fun a b : FileData × Option Int => optTsLe a.2 b.2)
      (files.map (fun file => (file, get_earliest_timestamp parseTs file))),
      q.2 = get_earliest_timestamp parseTs q.1 := by
    intro q hq
    have hq' := hspperm.subset hq
    rcases List.mem_map.mp hq' with ⟨f, _, rfl⟩
    rfl
  have hl₀fst :
      (files.map (fun file => (file, get_earliest_timestamp parseTs file))).map
        Prod.fst = files := by
    rw [List.map_map]
    exact List.map_id' files
  have hpw := stableSortBy_pairwise
    (fun a b : FileData × Option Int => optTsLe a.2 b.2)
    (fun a b => optTsLe_total a.2 b.2)
    (fun a b c => optTsLe_trans a.2 b.2 c.2)
    (files.map (fun file => (file, get_earliest_timestamp parseTs file)))
  refine ⟨?_, ?_, ?_, ?_, ?_⟩
  · show ((stableSortBy _ _).map Prod.fst).Perm files
    have hp := hspperm.map Prod.fst
    rwa [hl₀fst] at hp
  · show ((stableSortBy _ _).map Prod.fst).Pairwise _
    rw [List.pairwise_map]
    exact hpw.imp_of_mem (fun ha hb h => by
      rwa [hmemfact _ ha, hmemfact _ hb] at h)
  · show ((stableSortBy _ _).map Prod.fst).Pairwise _
    rw [List.pairwise_map]
    refine hpw.imp_of_mem (fun ha hb h => ?_)
    rename_i a b
    rw [hmemfact _ ha, hmemfact _ hb] at h
    intro hnone
    rw [hnone] at h
    cases hg : get_earliest_timestamp parseTs b.1 with
    | none => rfl
    | some y =>
      rw [hg] at h
      exact absurd h (by simp [optTsLe])
  · show ((stableSortBy _ _).map Prod.fst).filter _ = _
    rw [List.filter_map]
    have h1 : (stableSortBy
        (fun a b : FileData × Option Int => optTsLe a.2 b.2)
        (files.map (fun file => (file, get_earliest_timestamp parseTs file)))).filter
          ((fun f => (get_earliest_timestamp parseTs f).isNone) ∘ Prod.fst) =
        (stableSortBy
          (fun a b : FileData × Option Int => optTsLe a.2 b.2)
          (files.map (fun file => (file, get_earliest_timestamp parseTs file)))).filter
          (fun q => q.2.isNone) :=
      List.filter_congr (fun q hq => by
        simp only [Function.comp_apply]
        rw [hmemfact q hq])
    have h2 : (stableSortBy
        (fun a b : FileData × Option Int => optTsLe a.2 b.2)
        (files.map (fun file => (file, get_earliest_timestamp parseTs file)))).filter
          (fun q => q.2.isNone) =
        (files.map (fun file => (file, get_earliest_timestamp parseTs file))).filter
          (fun q => q.2.isNone) := by
      refine stableSortBy_filter _ _ _ ?_
      intro x _ hx y _
      have hx2 : x.2 = none := Option.isNone_iff_eq_none.mp hx
      rw [hx2]
      cases y.2 <;> rfl
    have h3 : (files.map (fun file => (file, get_earliest_timestamp parseTs file))).filter
          (fun q => q.2.isNone) =
        (files.map (fun file => (file, get_earliest_timestamp parseTs file))).filter
          ((fun f => (get_earliest_timestamp parseTs f).isNone) ∘ Prod.fst) :=
      List.filter_congr (fun q hq => by
        rcases List.mem_map.mp hq with ⟨f, _, rfl⟩
        rfl)
    rw [h1, h2, h3, ← List.filter_map, hl₀fst]
  · intro f
    rw [get_earliest_timestamp_eq_min]
    cases hv : validTimestamps parseTs f with
    | nil =>
      refine ⟨fun m => ?_, by simp⟩
      simp
    | cons t rest =>
      constructor
      · intro m
        constructor
        · intro hm
          have hm' : rest.foldl min t = m := by
            simpa using hm
          subst hm'
          exact ⟨foldl_min_mem rest t, fun x hx => foldl_min_le rest t x hx⟩
        · rintro ⟨hmem, hle⟩
          have h1 : rest.foldl min t ≤ m := foldl_min_le rest t m hmem
          have h2 : m ≤ rest.foldl min t := hle _ (foldl_min_mem rest t)
          exact congrArg some (le_antisymm h1 h2)
      · simp

/-- Closed instance of claim C6 at a concrete file list: three files, one of
them without any valid timestamp. -/
theorem claim_C6_chronological_order_witness :
    (sort_files_by_timestamp (fun s => if s = "t1" then some 1 else
        if s = "t2" then some 2 else none)
      [⟨["a"], some [some ⟨some "t2", none, none, none, none⟩]⟩,
       ⟨["b"], some [some ⟨none, none, none, none, none⟩]⟩,
       ⟨["c"], some [some ⟨some "t1", none, none, none, none⟩]⟩]).Perm
      [⟨["a"], some [some ⟨some "t2", none, none, none, none⟩]⟩,
       ⟨["b"], some [some ⟨none, none, none, none, none⟩]⟩,
       ⟨["c"], some [some ⟨some "t1", none, none, none, none⟩]⟩] :=
  (claim_C6_chronological_order
    (fun s => if s = "t1" then some 1 else if s = "t2" then some 2 else none)
    [⟨["a"], some [some ⟨some "t2", none, none, none, none⟩]⟩,
     ⟨["b"], some [some ⟨none, none, none, none, none⟩]⟩,
     ⟨["c"], some [some ⟨some "t1", none, none, none, none⟩]⟩]).1

/-! ## Record parsing (src/data_loader.rs lines 247-293, 422-441, 457-496) -/

/-- Struct `ParsedRecord` (src/data_loader.rs lines 186-193). -/
structure ParsedRecord where
  unique_hash : Option String
  date : String
  project : String
  model : Option String
  tokens : UsageTokens
  cost : ℚ
  deriving DecidableEq

/-- Struct `LoadOptions` (src/data_loader.rs lines 152-163), restricted to the
fields the aggregation core reads.  `claude_path`/`offline` only select the
input file set and the pricing dataset, and `timezone` is folded into the
`fmtDate` parameter. -/
structure LoadOptions where
  mode : CostMode
  order : SortOrder
  group_by_project : Bool
  project : Option String
  since : Option String
  until_ : Option String
  deriving DecidableEq

/-- `create_unique_hash` (src/data_loader.rs lines 422-429): message id plus
request id, the latter from `requestId` or else `request.id`. -/
def create_unique_hash (data : UsageData) : Option String :=
  match data.message with
  | none => none
  | some message =>
    match message.id with
    | none => none
    | some message_id =>
      match data.request_id.or (data.request.bind (fun r => r.id)) with
      | none => none
      | some req_id => some (message_id ++ ":" ++ req_id)

/-- `extract_usage_tokens` (src/data_loader.rs lines 431-441): both input and
output counts are required, the cache counts default to 0. -/
def extract_usage_tokens (message : UsageMessage) : Option UsageTokens :=
  match message.usage with
  | none => none
  | some usage =>
    match usage.input_tokens, usage.output_tokens with
    | some input, some output =>
      some { input_tokens := input, output_tokens := output,
             cache_creation_input_tokens := usage.cache_creation_input_tokens.getD 0,
             cache_read_input_tokens := usage.cache_read_input_tokens.getD 0 }
    | _, _ => none

/-- `calculate_cost_for_entry` (src/data_loader.rs lines 457-496).  The
`pricing` parameter models `Option<&PricingFetcher>`, a fetcher being its
`calculate_cost_from_tokens` method. -/
def calculate_cost_for_entry (data : UsageData) (mode : CostMode)
    (pricing : Option (UsageTokens → Option String → ℚ)) : ℚ :=
  match mode with
  | CostMode.Display => data.cost_usd.getD 0
  | CostMode.Calculate =>
    match data.message with
    | none => 0
    | some message =>
      match extract_usage_tokens message with
      | none => 0
      | some tokens =>
        match pricing with
        | some fetcher => fetcher tokens message.model
        | none => 0
  | CostMode.Auto =>
    match data.cost_usd with
    | some cost => cost
    | none =>
      match data.message with
      | none => 0
      | some message =>
        match extract_usage_tokens message with
        | none => 0
        | some tokens =>
          match pricing with
          | some fetcher => fetcher tokens message.model
          | none => 0

/-- The per-line closure of `parse_file_records`
(src/data_loader.rs lines 254-291): skip undecodable lines and lines missing
the message, the token counts, the timestamp, or a formattable date. -/
def parse_usage_line (mode : CostMode)
    (pricing : Option (UsageTokens → Option String → ℚ))
    (fmtDate : String → Option String) (project : String)
    (line : Option UsageData) : Option ParsedRecord :=
  match line with
  | none => none
  | some parsed =>
    match parsed.message with
    | none => none
    | some message =>
      match extract_usage_tokens message with
      | none => none
      | some tokens =>
        match parsed.timestamp with
        | none => none
        | some timestamp =>
          match fmtDate timestamp with
          | none => none
          | some date =>
            some { unique_hash := create_unique_hash parsed, date := date,
                   project := project, model := message.model,
                   tokens := tokens,
                   cost := calculate_cost_for_entry parsed mode pricing }

/-- `parse_file_records` (src/data_loader.rs lines 247-293): a file that
cannot be opened is a hard error (`process_jsonl_file_by_line` propagates the
`File::open` failure, lines 313-318); otherwise the parseable lines. -/
def parse_file_records (mode : CostMode)
    (pricing : Option (UsageTokens → Option String → ℚ))
    (fmtDate : String → Option String) (project : String)
    (file : FileData) : Except String (List ParsedRecord) :=
  match file.content with
  | none => Except.error "failed to open file"
  | some lines =>
    Except.ok (lines.filterMap (parse_usage_line mode pricing fmtDate project))

/-! ## Aggregates (src/data_loader.rs lines 95-150, 443-455) -/

/-- Struct `TokenStats` (src/data_loader.rs lines 96-102). -/
structure TokenStats where
  input_tokens : Nat
  output_tokens : Nat
  cache_creation_tokens : Nat
  cache_read_tokens : Nat
  cost : ℚ
  deriving DecidableEq

/-- `TokenStats::default()` (src/data_loader.rs lines 104-114). -/
def TokenStats.zero : TokenStats := ⟨0, 0, 0, 0, 0⟩

/-- The additions performed on one `TokenStats` entry by
`update_model_breakdowns` (src/data_loader.rs lines 450-454). -/
def TokenStats.addUsage (s : TokenStats) (tokens : UsageTokens)
    (cost : ℚ) : TokenStats :=
  { input_tokens := s.input_tokens + tokens.input_tokens,
    output_tokens := s.output_tokens + tokens.output_tokens,
    cache_creation_tokens := s.cache_creation_tokens + tokens.cache_creation_input_tokens,
    cache_read_tokens := s.cache_read_tokens + tokens.cache_read_input_tokens,
    cost := s.cost + cost }

/-- A Rust `HashMap`'s `entry(key).or_default()` followed by a mutation,
modelled on an insertion-ordered association list: mutate the entry in place
if the key is present, else append the mutated default. -/
def updateAssoc {β : Type} (l : List (String × β)) (k : String) (f : β → β)
    (d : β) : List (String × β) :=
  match l with
  | [] => [(k, f d)]
  | (k', v) :: rest =>
    if k' = k then (k', f v) :: rest else (k', v) :: updateAssoc rest k f d

/-- `HashMap::get` on the association-list model. -/
def lookupA {β : Type} (l : List (String × β)) (k : String) : Option β :=
  match l with
  | [] => none
  | (k', v) :: rest => if k' = k then some v else lookupA rest k

/-- `update_model_breakdowns` (src/data_loader.rs lines 443-455). -/
def update_model_breakdowns (breakdowns : List (String × TokenStats))
    (model_name : String) (tokens : UsageTokens) (cost : ℚ) :
    List (String × TokenStats) :=
  updateAssoc breakdowns model_name (fun s => s.addUsage tokens cost)
    TokenStats.zero

/-- Struct `Aggregate` (src/data_loader.rs lines 116-141).  The companion
`models_used_seen : HashSet` only mirrors membership in `models_used`, so it
is modelled by the membership test itself. -/
structure Aggregate where
  input_tokens : Nat
  output_tokens : Nat
  cache_creation_tokens : Nat
  cache_read_tokens : Nat
  total_cost : ℚ
  models_used : List String
  model_breakdowns : List (String × TokenStats)
  deriving DecidableEq

/-- `Aggregate::default()` (src/data_loader.rs lines 128-141). -/
def Aggregate.zero : Aggregate := ⟨0, 0, 0, 0, 0, [], []⟩

/-- `Aggregate::push_model` (src/data_loader.rs lines 143-150). -/
def Aggregate.push_model (a : Aggregate) (model : String) : Aggregate :=
  if model ∈ a.models_used then a
  else { a with models_used := a.models_used ++ [model] }

/-! ## The daily fold (src/data_loader.rs lines 543-596) -/

/-- The bucket key computed at src/data_loader.rs lines 559-567: the date, or
`date ++ NUL ++ project` when grouping by project. -/
def bucketKey (needs_project_grouping : Bool) (record : ParsedRecord) : String :=
  if needs_project_grouping then record.date ++ "\x00" ++ record.project
  else record.date

/-- The per-record bucket mutation of the fold
(src/data_loader.rs lines 569-593): add token counts and cost, then record the
model (skipping the synthetic marker; records without a model go to the
"unknown" breakdown only). -/
def applyDaily (record : ParsedRecord) (entry : Aggregate) : Aggregate :=
  let entry := { entry with
    input_tokens := entry.input_tokens + record.tokens.input_tokens,
    output_tokens := entry.output_tokens + record.tokens.output_tokens,
    cache_creation_tokens :=
      entry.cache_creation_tokens + record.tokens.cache_creation_input_tokens,
    cache_read_tokens :=
      entry.cache_read_tokens + record.tokens.cache_read_input_tokens,
    total_cost := entry.total_cost + record.cost }
  match record.model with
  | some model =>
    if model ≠ "<synthetic>" then
      let entry := entry.push_model model
      { entry with model_breakdowns :=
          (update_model_breakdowns entry.model_breakdowns model record.tokens
            record.cost) }
    else entry
  | none =>
    { entry with model_breakdowns :=
        (update_model_breakdowns entry.model_breakdowns "unknown" record.tokens
          record.cost) }

/-- One iteration of the record loop at src/data_loader.rs lines 551-594:
state is (`processed_hashes`, `aggregates`). -/
def dailyFoldStep (np : Bool) (st : List String × List (String × Aggregate))
    (record : ParsedRecord) : List String × List (String × Aggregate) :=
  match record.unique_hash with
  | some hash =>
    if hash ∈ st.1 then st
    else (hash :: st.1,
      updateAssoc st.2 (bucketKey np record) (applyDaily record) Aggregate.zero)
  | none =>
    (st.1,
      updateAssoc st.2 (bucketKey np record) (applyDaily record) Aggregate.zero)

/-- The aggregates map produced by the dedup-and-fold loop over the full
record stream (batching concatenates the per-batch record lists in order, so
the stream is the concatenation of the per-file record lists in
chronologically sorted file order). -/
def dailyAggregates (np : Bool) (records : List ParsedRecord) :
    List (String × Aggregate) :=
  (records.foldl (dailyFoldStep np) ([], [])).2

/-- The records retained by the `processed_hashes` dedup check, in stream
order (specification view of the dedup part of the fold). -/
def dedupRecords (seen : List String) : List ParsedRecord → List ParsedRecord
  | [] => []
  | r :: rs =>
    match r.unique_hash with
    | some hash =>
      if hash ∈ seen then dedupRecords seen rs
      else r :: dedupRecords (hash :: seen) rs
    | none => r :: dedupRecords seen rs

/-- Generic bucket fold: fold entries into a key-indexed aggregate map,
skipping entries without a key.  The dedup-free part of the daily fold and
the monthly re-fold are both instances. -/
def foldBuckets {ε : Type} (κ : ε → Option String)
    (app : ε → Aggregate → Aggregate) (entries : List ε) :
    List (String × Aggregate) :=
  entries.foldl
    (fun aggs e =>
      match κ e with
      | none => aggs
      | some k => updateAssoc aggs k (app e) Aggregate.zero) []

/-! ## Result construction (src/data_loader.rs lines 59-93, 598-658) -/

/-- Struct `ModelBreakdown` (src/data_loader.rs lines 60-67). -/
structure ModelBreakdown where
  model_name : String
  input_tokens : Nat
  output_tokens : Nat
  cache_creation_tokens : Nat
  cache_read_tokens : Nat
  cost : ℚ
  deriving DecidableEq

/-- Struct `DailyUsage` (src/data_loader.rs lines 70-80). -/
structure DailyUsage where
  date : String
  input_tokens : Nat
  output_tokens : Nat
  cache_creation_tokens : Nat
  cache_read_tokens : Nat
  total_cost : ℚ
  models_used : List String
  model_breakdowns : List ModelBreakdown
  project : Option String
  deriving DecidableEq

/-- Struct `MonthlyUsage` (src/data_loader.rs lines 83-93). -/
structure MonthlyUsage where
  month : String
  input_tokens : Nat
  output_tokens : Nat
  cache_creation_tokens : Nat
  cache_read_tokens : Nat
  total_cost : ℚ
  models_used : List String
  model_breakdowns : List ModelBreakdown
  project : Option String
  deriving DecidableEq

/-- `group_key.split_once('\u0000')` (src/data_loader.rs line 600): split at
the first NUL, whole string and `none` when there is no NUL. -/
def splitOnNul (s : String) : String × Option String :=
  match s.data.dropWhile (fun c => c ≠ '\x00') with
  | [] => (s, none)
  | _ :: tail => (⟨s.data.takeWhile (fun c => c ≠ '\x00')⟩, some ⟨tail⟩)

/-- Conversion of one breakdown-map entry to a `ModelBreakdown`
(src/data_loader.rs lines 610-617). -/
def toModelBreakdown (p : String × TokenStats) : ModelBreakdown :=
  { model_name := p.1, input_tokens := p.2.input_tokens,
    output_tokens := p.2.output_tokens,
    cache_creation_tokens := p.2.cache_creation_tokens,
    cache_read_tokens := p.2.cache_read_tokens, cost := p.2.cost }

/-- Breakdown-list finalisation (src/data_loader.rs lines 606-623): iterate
the per-bucket breakdown map (`iterB` models the unspecified `HashMap`
iteration order), drop the synthetic marker, convert to `ModelBreakdown`, and
stable-sort descending by cost. -/
def toBreakdownList
    (iterB : List (String × TokenStats) → List (String × TokenStats))
    (breakdowns : List (String × TokenStats)) : List ModelBreakdown :=
  stableSortBy (fun a b => decide (b.cost ≤ a.cost))
    (((iterB breakdowns).filter (fun p => decide (p.1 ≠ "<synthetic>"))).map
      toModelBreakdown)

/-- One `DailyUsage` result from one aggregate-map entry
(src/data_loader.rs lines 599-637). -/
def finalizeDailyBucket
    (iterB : List (String × TokenStats) → List (String × TokenStats))
    (p : String × Aggregate) : DailyUsage :=
  { date := (splitOnNul p.1).1,
    input_tokens := p.2.input_tokens, output_tokens := p.2.output_tokens,
    cache_creation_tokens := p.2.cache_creation_tokens,
    cache_read_tokens := p.2.cache_read_tokens,
    total_cost := p.2.total_cost, models_used := p.2.models_used,
    model_breakdowns := toBreakdownList iterB p.2.model_breakdowns,
    project := (splitOnNul p.1).2 }

/-- One `MonthlyUsage` result from one aggregate-map entry
(src/data_loader.rs lines 712-750). -/
def finalizeMonthlyBucket
    (iterB : List (String × TokenStats) → List (String × TokenStats))
    (p : String × Aggregate) : MonthlyUsage :=
  { month := (splitOnNul p.1).1,
    input_tokens := p.2.input_tokens, output_tokens := p.2.output_tokens,
    cache_creation_tokens := p.2.cache_creation_tokens,
    cache_read_tokens := p.2.cache_read_tokens,
    total_cost := p.2.total_cost, models_used := p.2.models_used,
    model_breakdowns := toBreakdownList iterB p.2.model_breakdowns,
    project := (splitOnNul p.1).2 }

/-- Sequential map with fail-fast `Except` propagation: the value of the
chunked `parse ... collect::<Vec<_>>` + `records?` loops
(src/data_loader.rs lines 543-550) — any per-file error aborts the run with
the first error in sorted file order. -/
def mapExcept {α β : Type} (f : α → Except String β) :
    List α → Except String (List β)
  | [] => Except.ok []
  | x :: xs =>
    match f x with
    | Except.error e => Except.error e
    | Except.ok y =>
      match mapExcept f xs with
      | Except.error e => Except.error e
      | Except.ok ys => Except.ok (y :: ys)

/-- The `file_list.retain(...)` project filter
(src/data_loader.rs lines 512-514). -/
def projectFileFilter (projectFilter : Option String)
    (files : List FileData) : List FileData :=
  match projectFilter with
  | some project =>
    files.filter (fun file => decide (extract_project_from_path file.path = project))
  | none => files

/-- `load_daily_usage_data` (src/data_loader.rs lines 498-659), from the
discovered file list onwards.  `calcCost` models
`PricingFetcher::calculate_cost_from_tokens` over the bundled dataset;
`iterA`/`iterB` model the unspecified iteration order of the aggregates map
and of each bucket's breakdown map. -/
def load_daily_usage_data (calcCost : UsageTokens → Option String → ℚ)
    (fmtDate : String → Option String) (parseTs : String → Option Int)
    (options : LoadOptions)
    (iterA : List (String × Aggregate) → List (String × Aggregate))
    (iterB : List (String × TokenStats) → List (String × TokenStats))
    (files : List FileData) : Except String (List DailyUsage) :=
  let file_list := projectFileFilter options.project files
  if file_list.isEmpty then Except.ok []
  else
    let sorted_files := sort_files_by_timestamp parseTs file_list
    let pricing : Option (UsageTokens → Option String → ℚ) :=
      if options.mode = CostMode.Display then none else some calcCost
    let needs_project_grouping := options.group_by_project || options.project.isSome
    match mapExcept
        (fun file => parse_file_records options.mode pricing fmtDate
          (extract_project_from_path file.path) file) sorted_files with
    | Except.error e => Except.error e
    | Except.ok parsed =>
      let aggregates := dailyAggregates needs_project_grouping parsed.flatten
      let results := (iterA aggregates).map (finalizeDailyBucket iterB)
      let filtered := filter_by_date_range results (fun item => item.date)
        options.since options.until_
      let final_results :=
        match options.project with
        | some project =>
          filtered.filter (fun item => decide (item.project = some project))
        | none => filtered
      Except.ok (sort_by_date final_results (fun item => item.date) options.order)

/-! ## Monthly aggregation (src/data_loader.rs lines 661-756) -/

/-- The month bucket key of the monthly re-fold
(src/data_loader.rs lines 671-685); entries whose date is too short for
`format_month` are skipped (`continue`). -/
def monthKey (np : Bool) (entry : DailyUsage) : Option String :=
  match format_month entry.date with
  | none => none
  | some month =>
    some (if np then month ++ "\x00" ++ entry.project.getD "unknown" else month)

/-- The per-entry bucket mutation of the monthly re-fold
(src/data_loader.rs lines 687-708): sum tokens and cost, re-push the daily
model list, re-merge the daily breakdowns. -/
def applyMonthly (entry : DailyUsage) (aggregate : Aggregate) : Aggregate :=
  let aggregate := { aggregate with
    input_tokens := aggregate.input_tokens + entry.input_tokens,
    output_tokens := aggregate.output_tokens + entry.output_tokens,
    cache_creation_tokens :=
      aggregate.cache_creation_tokens + entry.cache_creation_tokens,
    cache_read_tokens := aggregate.cache_read_tokens + entry.cache_read_tokens,
    total_cost := aggregate.total_cost + entry.total_cost }
  let aggregate := entry.models_used.foldl
    (fun a model => a.push_model model) aggregate
  { aggregate with model_breakdowns :=
      (entry.model_breakdowns.foldl
        (fun bd b => update_model_breakdowns bd b.model_name
          ⟨b.input_tokens, b.output_tokens, b.cache_creation_tokens,
            b.cache_read_tokens⟩ b.cost)
        aggregate.model_breakdowns) }

/-- The monthly aggregates map re-folded from the daily results
(src/data_loader.rs lines 667-709). -/
def monthlyAggregates (np : Bool) (daily : List DailyUsage) :
    List (String × Aggregate) :=
  foldBuckets (monthKey np) applyMonthly daily

/-- The second pass of `load_monthly_usage_data`
(src/data_loader.rs lines 663-755): re-fold the daily results into month
buckets and re-sort. -/
def monthly_from_daily (np : Bool) (order : SortOrder)
    (iterAM : List (String × Aggregate) → List (String × Aggregate))
    (iterBM : List (String × TokenStats) → List (String × TokenStats))
    (daily : List DailyUsage) : List MonthlyUsage :=
  if daily.isEmpty then []
  else
    let results := (iterAM (monthlyAggregates np daily)).map
      (finalizeMonthlyBucket iterBM)
    sort_by_date results (fun item => item.month) order

/-- `load_monthly_usage_data` (src/data_loader.rs lines 661-756): run the
daily aggregation, then re-fold its result. -/
def load_monthly_usage_data (calcCost : UsageTokens → Option String → ℚ)
    (fmtDate : String → Option String) (parseTs : String → Option Int)
    (options : LoadOptions)
    (iterA : List (String × Aggregate) → List (String × Aggregate))
    (iterB : List (String × TokenStats) → List (String × TokenStats))
    (iterAM : List (String × Aggregate) → List (String × Aggregate))
    (iterBM : List (String × TokenStats) → List (String × TokenStats))
    (files : List FileData) : Except String (List MonthlyUsage) :=
  (load_daily_usage_data calcCost fmtDate parseTs options iterA iterB files).map
    (monthly_from_daily (options.group_by_project || options.project.isSome)
      options.order iterAM iterBM)

/-! ## Association-map lemmas -/

theorem lookupA_updateAssoc_self {β : Type} (l : List (String × β))
    (k : String) (f : β → β) (d : β) :
    lookupA (updateAssoc l k f d) k = some (f ((lookupA l k).getD d)) := by
  induction l with
  | nil => simp [updateAssoc, lookupA]
  | cons p rest ih =>
    obtain ⟨k', v⟩ := p
    by_cases h : k' = k
    · subst h
      simp [updateAssoc, lookupA]
    · simp [updateAssoc, lookupA, h, ih]

theorem lookupA_updateAssoc_ne {β : Type} (l : List (String × β))
    (k k₀ : String) (f : β → β) (d : β) (h : k₀ ≠ k) :
    lookupA (updateAssoc l k f d) k₀ = lookupA l k₀ := by
  induction l with
  | nil =>
    simp only [updateAssoc, lookupA]
    exact if_neg (fun hh => h hh.symm)
  | cons p rest ih =>
    obtain ⟨k', v⟩ := p
    by_cases hk : k' = k
    · subst hk
      have hne : k' ≠ k₀ := fun hh => h hh.symm
      simp [updateAssoc, lookupA, hne]
    · by_cases hk0 : k' = k₀
      · subst hk0
        simp [updateAssoc, lookupA, hk]
      · simp [updateAssoc, lookupA, hk, hk0, ih]

theorem keys_updateAssoc_of_mem {β : Type} (l : List (String × β))
    (k : String) (f : β → β) (d : β) (h : k ∈ l.map Prod.fst) :
    (updateAssoc l k f d).map Prod.fst = l.map Prod.fst := by
  induction l with
  | nil => simp at h
  | cons p rest ih =>
    obtain ⟨k', v⟩ := p
    by_cases hk : k' = k
    · subst hk
      simp [updateAssoc]
    · have h' : k ∈ rest.map Prod.fst := by
        rw [List.map_cons] at h
        rcases List.mem_cons.mp h with heq | hm
        · exact absurd heq (fun hh => hk hh.symm)
        · exact hm
      simp [updateAssoc, hk, ih h']

theorem keys_updateAssoc_of_not_mem {β : Type} (l : List (String × β))
    (k : String) (f : β → β) (d : β) (h : k ∉ l.map Prod.fst) :
    (updateAssoc l k f d).map Prod.fst = l.map Prod.fst ++ [k] := by
  induction l with
  | nil => simp [updateAssoc]
  | cons p rest ih =>
    obtain ⟨k', v⟩ := p
    have hk : k' ≠ k := by
      intro hh
      exact h (by simp [hh])
    have h' : k ∉ rest.map Prod.fst := fun hm => h (by simp [hm])
    simp [updateAssoc, hk, ih h']

theorem nodup_keys_updateAssoc {β : Type} (l : List (String × β))
    (k : String) (f : β → β) (d : β) (h : (l.map Prod.fst).Nodup) :
    ((updateAssoc l k f d).map Prod.fst).Nodup := by
  by_cases hmem : k ∈ l.map Prod.fst
  · rwa [keys_updateAssoc_of_mem l k f d hmem]
  · rw [keys_updateAssoc_of_not_mem l k f d hmem]
    rw [List.nodup_append]
    exact ⟨h, List.nodup_singleton k,
      fun a ha hb => hmem ((List.mem_singleton.mp hb) ▸ ha)⟩

theorem mem_iff_lookupA {β : Type} (l : List (String × β))
    (hnd : (l.map Prod.fst).Nodup) (k : String) (v : β) :
    (k, v) ∈ l ↔ lookupA l k = some v := by
  induction l with
  | nil => simp [lookupA]
  | cons p rest ih =>
    obtain ⟨k', v'⟩ := p
    rw [List.map_cons, List.nodup_cons] at hnd
    obtain ⟨hknotin, hndrest⟩ := hnd
    by_cases hk : k' = k
    · subst hk
      have hlook : lookupA ((k', v') :: rest) k' = some v' := by
        simp [lookupA]
      rw [hlook, List.mem_cons]
      constructor
      · rintro (heq | hmem)
        · rw [((Prod.mk.injEq _ _ _ _).mp heq).2]
        · exact absurd (List.mem_map.mpr ⟨(k', v), hmem, rfl⟩) hknotin
      · intro hv
        exact Or.inl (by rw [Option.some_inj.mp hv])
    · have hlook : lookupA ((k', v') :: rest) k = lookupA rest k := by
        simp [lookupA, hk]
      rw [hlook, List.mem_cons, ← ih hndrest]
      constructor
      · rintro (heq | hmem)
        · exact absurd ((Prod.mk.injEq _ _ _ _).mp heq).1.symm hk
        · exact hmem
      · exact fun hmem => Or.inr hmem

/-! ## Generic bucket-fold lemmas -/

theorem nodup_keys_foldBuckets_go {ε : Type} (κ : ε → Option String)
    (app : ε → Aggregate → Aggregate) (entries : List ε) :
    ∀ (aggs : List (String × Aggregate)), (aggs.map Prod.fst).Nodup →
    (((entries.foldl
      (fun aggs e =>
        match κ e with
        | none => aggs
        | some k => updateAssoc aggs k (app e) Aggregate.zero) aggs)).map
      Prod.fst).Nodup := by
  induction entries with
  | nil => intro aggs h; exact h
  | cons e rest ih =>
    intro aggs h
    rw [List.foldl_cons]
    cases κ e with
    | none => exact ih aggs h
    | some k => exact ih _ (nodup_keys_updateAssoc aggs k (app e) Aggregate.zero h)

theorem nodup_keys_foldBuckets {ε : Type} (κ : ε → Option String)
    (app : ε → Aggregate → Aggregate) (entries : List ε) :
    ((foldBuckets κ app entries).map Prod.fst).Nodup :=
  nodup_keys_foldBuckets_go κ app entries [] (by simp)

theorem lookupA_foldBuckets_go {ε : Type} (κ : ε → Option String)
    (app : ε → Aggregate → Aggregate) (entries : List ε) :
    ∀ (aggs : List (String × Aggregate)) (k : String),
    lookupA (entries.foldl
      (fun aggs e =>
        match κ e with
        | none => aggs
        | some k' => updateAssoc aggs k' (app e) Aggregate.zero) aggs) k
    = (entries.filter (fun e => decide (κ e = some k))).foldl
        (fun o e => some (app e (o.getD Aggregate.zero))) (lookupA aggs k) := by
  induction entries with
  | nil => intro aggs k; rfl
  | cons e rest ih =>
    intro aggs k
    rw [List.foldl_cons, List.filter_cons]
    cases hκ : κ e with
    | none =>
      simp only [hκ]
      have : (decide ((none : Option String) = some k)) = false := by simp
      rw [this]
      simp only [Bool.false_eq_true, if_false]
      exact ih aggs k
    | some k' =>
      simp only [hκ]
      by_cases hk : k' = k
      · subst hk
        have : (decide (some k' = some k')) = true := by simp
        rw [this, if_pos rfl, List.foldl_cons, ih]
        congr 1
        exact lookupA_updateAssoc_self aggs k' (app e) Aggregate.zero
      · have : (decide (some k' = some k)) = false := by simp [hk]
        rw [this]
        simp only [Bool.false_eq_true, if_false]
        rw [ih]
        congr 1
        exact lookupA_updateAssoc_ne aggs k' k (app e) Aggregate.zero
          (fun hh => hk hh.symm)

theorem foldl_optApply_some {ε : Type} (app : ε → Aggregate → Aggregate)
    (l : List ε) : ∀ (a : Aggregate),
    l.foldl (fun o e => some (app e (o.getD Aggregate.zero))) (some a)
      = some (l.foldl (fun acc e => app e acc) a) := by
  induction l with
  | nil => intro a; rfl
  | cons e rest ih =>
    intro a
    rw [List.foldl_cons, List.foldl_cons]
    exact ih (app e a)

/-- The value of a bucket of the generic fold: the fold of `app` over exactly
the entries keyed to that bucket, in stream order, starting from the default
aggregate. -/
theorem lookupA_foldBuckets {ε : Type} (κ : ε → Option String)
    (app : ε → Aggregate → Aggregate) (entries : List ε) (k : String) :
    lookupA (foldBuckets κ app entries) k =
      match entries.filter (fun e => decide (κ e = some k)) with
      | [] => none
      | c :: cs => some ((c :: cs).foldl (fun acc e => app e acc) Aggregate.zero) := by
  unfold foldBuckets
  rw [lookupA_foldBuckets_go]
  cases entries.filter (fun e => decide (κ e = some k)) with
  | nil => rfl
  | cons c cs =>
    show cs.foldl _ (some (app c Aggregate.zero)) = _
    rw [foldl_optApply_some]
    rfl

theorem mem_foldBuckets_eq {ε : Type} (κ : ε → Option String)
    (app : ε → Aggregate → Aggregate) (entries : List ε) (k : String)
    (a : Aggregate) (h : (k, a) ∈ foldBuckets κ app entries) :
    a = (entries.filter (fun e => decide (κ e = some k))).foldl
        (fun acc e => app e acc) Aggregate.zero
    ∧ entries.filter (fun e => decide (κ e = some k)) ≠ [] := by
  have hlook := (mem_iff_lookupA _ (nodup_keys_foldBuckets κ app entries) k a).mp h
  rw [lookupA_foldBuckets] at hlook
  cases hfil : entries.filter (fun e => decide (κ e = some k)) with
  | nil => rw [hfil] at hlook; exact absurd hlook (by simp)
  | cons c cs =>
    rw [hfil] at hlook
    refine ⟨?_, by simp⟩
    have := Option.some_inj.mp hlook
    rw [← this]

/-! ## Deduplication lemmas -/

/-- The interleaved dedup-and-fold loop equals the bucket fold over the
dedup-retained record stream. -/
theorem dailyFold_eq_dedup (np : Bool) (records : List ParsedRecord) :
    ∀ (seen : List String) (aggs : List (String × Aggregate)),
    (records.foldl (dailyFoldStep np) (seen, aggs)).2 =
      (dedupRecords seen records).foldl
        (fun aggs r =>
          updateAssoc aggs (bucketKey np r) (applyDaily r) Aggregate.zero)
        aggs := by
  induction records with
  | nil => intro seen aggs; rfl
  | cons r rest ih =>
    intro seen aggs
    rw [List.foldl_cons]
    cases hh : r.unique_hash with
    | some hash =>
      by_cases hmem : hash ∈ seen
      · have hstep : dailyFoldStep np (seen, aggs) r = (seen, aggs) := by
          simp [dailyFoldStep, hh, hmem]
        have hded : dedupRecords seen (r :: rest) = dedupRecords seen rest := by
          simp [dedupRecords, hh, hmem]
        rw [hstep, hded]
        exact ih seen aggs
      · have hstep : dailyFoldStep np (seen, aggs) r =
            (hash :: seen,
              updateAssoc aggs (bucketKey np r) (applyDaily r) Aggregate.zero) := by
          simp [dailyFoldStep, hh, hmem]
        have hded : dedupRecords seen (r :: rest) =
            r :: dedupRecords (hash :: seen) rest := by
          simp [dedupRecords, hh, hmem]
        rw [hstep, hded, List.foldl_cons]
        exact ih (hash :: seen) _
    | none =>
      have hstep : dailyFoldStep np (seen, aggs) r =
          (seen,
            updateAssoc aggs (bucketKey np r) (applyDaily r) Aggregate.zero) := by
        simp [dailyFoldStep, hh]
      have hded : dedupRecords seen (r :: rest) =
          r :: dedupRecords seen rest := by
        simp [dedupRecords, hh]
      rw [hstep, hded, List.foldl_cons]
      exact ih seen _

theorem dailyAggregates_eq_foldBuckets (np : Bool)
    (records : List ParsedRecord) :
    dailyAggregates np records =
      foldBuckets (fun r => some (bucketKey np r)) applyDaily
        (dedupRecords [] records) := by
  unfold dailyAggregates foldBuckets
  rw [dailyFold_eq_dedup np records [] []]

/-- Per identity key, the dedup-retained records are exactly the first
occurrence of that key in the stream. -/
theorem dedupRecords_filter_key (k : String) :
    ∀ (records : List ParsedRecord) (seen : List String),
    (dedupRecords seen records).filter
        (fun r => decide (r.unique_hash = some k)) =
      if k ∈ seen then []
      else (records.filter (fun r => decide (r.unique_hash = some k))).take 1 := by
  intro records
  induction records with
  | nil =>
    intro seen
    by_cases h : k ∈ seen <;> simp [dedupRecords, h]
  | cons r rest ih =>
    intro seen
    cases hh : r.unique_hash with
    | some hash =>
      by_cases hk : hash = k
      · subst hk
        by_cases hmem : hash ∈ seen
        · rw [show dedupRecords seen (r :: rest) = dedupRecords seen rest from by
            simp [dedupRecords, hh, hmem]]
          rw [ih seen, if_pos hmem, if_pos hmem]
        · rw [show dedupRecords seen (r :: rest) =
              r :: dedupRecords (hash :: seen) rest from by
            simp [dedupRecords, hh, hmem]]
          rw [List.filter_cons,
            show (decide (r.unique_hash = some hash)) = true from by simp [hh]]
          simp only [if_true]
          rw [ih (hash :: seen), if_pos (List.mem_cons_self hash seen),
            if_neg hmem, List.filter_cons,
            show (decide (r.unique_hash = some hash)) = true from by simp [hh]]
          simp
      · have hP : (decide (r.unique_hash = some k)) = false := by simp [hh, hk]
        by_cases hmem : hash ∈ seen
        · rw [show dedupRecords seen (r :: rest) = dedupRecords seen rest from by
            simp [dedupRecords, hh, hmem]]
          rw [ih seen, List.filter_cons, hP]
          simp only [Bool.false_eq_true, if_false]
        · rw [show dedupRecords seen (r :: rest) =
              r :: dedupRecords (hash :: seen) rest from by
            simp [dedupRecords, hh, hmem]]
          rw [List.filter_cons, hP]
          simp only [Bool.false_eq_true, if_false]
          rw [ih (hash :: seen), List.filter_cons, hP]
          simp only [Bool.false_eq_true, if_false]
          by_cases hks : k ∈ seen
          · rw [if_pos (List.mem_cons_of_mem hash hks), if_pos hks]
          · rw [if_neg (fun hc => by
                rcases List.mem_cons.mp hc with heq | hm
                · exact hk heq.symm
                · exact hks hm),
              if_neg hks]
    | none =>
      rw [show dedupRecords seen (r :: rest) = r :: dedupRecords seen rest from by
        simp [dedupRecords, hh]]
      have hP : (decide (r.unique_hash = some k)) = false := by simp [hh]
      rw [List.filter_cons, hP]
      simp only [Bool.false_eq_true, if_false]
      rw [ih seen, List.filter_cons, hP]
      simp only [Bool.false_eq_true, if_false]

/-- The head of the filtered flattening of a list of lists lies in the first
sub-list containing an element satisfying the predicate. -/
theorem flatten_filter_head {α : Type} (P : α → Bool) :
    ∀ (fls : List (List α)) (r : α),
    (fls.flatten.filter P).head? = some r →
    ∃ pre f post, fls = pre ++ f :: post ∧ r ∈ f ∧ P r = true ∧
      ∀ g ∈ pre, ∀ x ∈ g, P x = false := by
  intro fls
  induction fls with
  | nil => intro r h; simp at h
  | cons f fs ih =>
    intro r h
    rw [List.flatten_cons, List.filter_append] at h
    cases hf : f.filter P with
    | nil =>
      rw [hf, List.nil_append] at h
      rcases ih r h with ⟨pre, f', post, heq, hrf, hPr, hpre⟩
      refine ⟨f :: pre, f', post, by rw [heq]; rfl, hrf, hPr, ?_⟩
      intro g hg x hx
      rcases List.mem_cons.mp hg with rfl | hg'
      · have := List.filter_eq_nil_iff.mp hf x hx
        simpa using this
      · exact hpre g hg' x hx
    | cons c cs =>
      rw [hf, List.cons_append, List.head?_cons] at h
      have hrc : c = r := Option.some_inj.mp h
      subst hrc
      have hcf : c ∈ f.filter P := by
        rw [hf]
        exact List.mem_cons_self c cs
      have hcmem := List.mem_filter.mp hcf
      exact ⟨[], f, fs, rfl, hcmem.1, hcmem.2, by intro g hg; simp at hg⟩

/-- Claim C1: for every input file set and identity key, at most one parsed
record contributes its counts and cost to the daily aggregates — exactly the
first record carrying the key in the stream obtained by concatenating the
chronologically-sorted files' records, which belongs to the earliest-sorted
file containing the key; every later record with the key is discarded. -/
theorem claim_C1_dedup_first_file_wins (np : Bool)
    (fls : List (List ParsedRecord)) (k : String) :
    dailyAggregates np fls.flatten =
      foldBuckets (fun r => some (bucketKey np r)) applyDaily
        (dedupRecords [] fls.flatten)
    ∧ (dedupRecords [] fls.flatten).filter
        (fun r => decide (r.unique_hash = some k)) =
      (fls.flatten.filter (fun r => decide (r.unique_hash = some k))).take 1
    ∧ ((dedupRecords [] fls.flatten).filter
        (fun r => decide (r.unique_hash = some k))).length ≤ 1
    ∧ ∀ r ∈ (dedupRecords [] fls.flatten).filter
        (fun r => decide (r.unique_hash = some k)),
        ∃ pre f post, fls = pre ++ f :: post ∧ r ∈ f ∧
          r.unique_hash = some k ∧
          ∀ g ∈ pre, ∀ x ∈ g, x.unique_hash ≠ some k := by
  have hfil := dedupRecords_filter_key k fls.flatten []
  rw [if_neg (List.not_mem_nil k)] at hfil
  refine ⟨dailyAggregates_eq_foldBuckets np fls.flatten, hfil, ?_, ?_⟩
  · rw [hfil]
    exact List.length_take_le 1 _
  · intro r hr
    rw [hfil] at hr
    have hhead : (fls.flatten.filter
        (fun r => decide (r.unique_hash = some k))).head? = some r := by
      cases hc : fls.flatten.filter (fun r => decide (r.unique_hash = some k)) with
      | nil => rw [hc] at hr; simp at hr
      | cons c cs =>
        rw [hc] at hr
        simp only [List.take_succ_cons, List.take_zero, List.mem_singleton] at hr
        rw [hr, List.head?_cons]
    rcases flatten_filter_head _ fls r hhead with ⟨pre, f, post, heq, hrf, hPr, hpre⟩
    refine ⟨pre, f, post, heq, hrf, by simpa using hPr, ?_⟩
    intro g hg x hx
    have := hpre g hg x hx
    simpa using this

/-- Closed instance of claim C1: two files carrying the same identity key. -/
theorem claim_C1_dedup_first_file_wins_witness :
    (dedupRecords []
      ([[⟨some "m1:r1", "2024-01-01", "p", none, ⟨1, 2, 0, 0⟩, 0⟩],
        [⟨some "m1:r1", "2024-01-02", "p", none, ⟨3, 4, 0, 0⟩, 0⟩]] :
        List (List ParsedRecord)).flatten).filter
        (fun r => decide (r.unique_hash = some "m1:r1")) =
      (([[⟨some "m1:r1", "2024-01-01", "p", none, ⟨1, 2, 0, 0⟩, 0⟩],
        [⟨some "m1:r1", "2024-01-02", "p", none, ⟨3, 4, 0, 0⟩, 0⟩]] :
        List (List ParsedRecord)).flatten.filter
        (fun r => decide (r.unique_hash = some "m1:r1"))).take 1 :=
  (claim_C1_dedup_first_file_wins false
    [[⟨some "m1:r1", "2024-01-01", "p", none, ⟨1, 2, 0, 0⟩, 0⟩],
     [⟨some "m1:r1", "2024-01-02", "p", none, ⟨3, 4, 0, 0⟩, 0⟩]] "m1:r1").2.1

/-! ## Per-bucket accounting lemmas (towards claims C5 and C4) -/

theorem push_model_input_tokens (a : Aggregate) (m : String) :
    (a.push_model m).input_tokens = a.input_tokens := by
  unfold Aggregate.push_model
  split <;> rfl

theorem push_model_output_tokens (a : Aggregate) (m : String) :
    (a.push_model m).output_tokens = a.output_tokens := by
  unfold Aggregate.push_model
  split <;> rfl

theorem push_model_cache_creation_tokens (a : Aggregate) (m : String) :
    (a.push_model m).cache_creation_tokens = a.cache_creation_tokens := by
  unfold Aggregate.push_model
  split <;> rfl

theorem push_model_cache_read_tokens (a : Aggregate) (m : String) :
    (a.push_model m).cache_read_tokens = a.cache_read_tokens := by
  unfold Aggregate.push_model
  split <;> rfl

theorem push_model_total_cost (a : Aggregate) (m : String) :
    (a.push_model m).total_cost = a.total_cost := by
  unfold Aggregate.push_model
  split <;> rfl

theorem push_model_model_breakdowns (a : Aggregate) (m : String) :
    (a.push_model m).model_breakdowns = a.model_breakdowns := by
  unfold Aggregate.push_model
  split <;> rfl

theorem push_model_models_used (a : Aggregate) (m : String) :
    (a.push_model m).models_used =
      if m ∈ a.models_used then a.models_used else a.models_used ++ [m] := by
  unfold Aggregate.push_model
  split <;> simp_all

theorem applyDaily_input_tokens (r : ParsedRecord) (a : Aggregate) :
    (applyDaily r a).input_tokens = a.input_tokens + r.tokens.input_tokens := by
  unfold applyDaily
  cases r.model with
  | none => rfl
  | some m =>
    dsimp only
    split
    · rw [push_model_input_tokens]
    · rfl

theorem applyDaily_output_tokens (r : ParsedRecord) (a : Aggregate) :
    (applyDaily r a).output_tokens = a.output_tokens + r.tokens.output_tokens := by
  unfold applyDaily
  cases r.model with
  | none => rfl
  | some m =>
    dsimp only
    split
    · rw [push_model_output_tokens]
    · rfl

theorem applyDaily_cache_creation_tokens (r : ParsedRecord) (a : Aggregate) :
    (applyDaily r a).cache_creation_tokens =
      a.cache_creation_tokens + r.tokens.cache_creation_input_tokens := by
  unfold applyDaily
  cases r.model with
  | none => rfl
  | some m =>
    dsimp only
    split
    · rw [push_model_cache_creation_tokens]
    · rfl

theorem applyDaily_cache_read_tokens (r : ParsedRecord) (a : Aggregate) :
    (applyDaily r a).cache_read_tokens =
      a.cache_read_tokens + r.tokens.cache_read_input_tokens := by
  unfold applyDaily
  cases r.model with
  | none => rfl
  | some m =>
    dsimp only
    split
    · rw [push_model_cache_read_tokens]
    · rfl

theorem applyDaily_total_cost (r : ParsedRecord) (a : Aggregate) :
    (applyDaily r a).total_cost = a.total_cost + r.cost := by
  unfold applyDaily
  cases r.model with
  | none => rfl
  | some m =>
    dsimp only
    split
    · rw [push_model_total_cost]
    · rfl

theorem applyDaily_models_used (r : ParsedRecord) (a : Aggregate) :
    (applyDaily r a).models_used =
      match r.model with
      | some m =>
        if m ≠ "<synthetic>" then (a.push_model m).models_used
        else a.models_used
      | none => a.models_used := by
  unfold applyDaily
  cases r.model with
  | none => rfl
  | some m =>
    dsimp only
    split
    · rw [push_model_models_used, push_model_models_used]
    · rfl

theorem applyDaily_model_breakdowns (r : ParsedRecord) (a : Aggregate) :
    (applyDaily r a).model_breakdowns =
      match r.model with
      | some m =>
        if m ≠ "<synthetic>" then
          update_model_breakdowns a.model_breakdowns m r.tokens r.cost
        else a.model_breakdowns
      | none =>
        update_model_breakdowns a.model_breakdowns "unknown" r.tokens r.cost := by
  unfold applyDaily
  cases r.model with
  | none => rfl
  | some m =>
    dsimp only
    split
    · rw [push_model_model_breakdowns]
    · rfl

/-- Summing a projection of the values over an in-place-additive map update. -/
theorem sum_map_updateAssoc {β M : Type} [AddCommMonoid M]
    (l : List (String × β)) (k : String) (f : β → β) (d : β) (g : β → M)
    (δ : M) (hf : ∀ v, g (f v) = g v + δ) (hd : g d = 0) :
    ((updateAssoc l k f d).map (fun p => g p.2)).sum =
      (l.map (fun p => g p.2)).sum + δ := by
  induction l with
  | nil => simp [updateAssoc, hf, hd]
  | cons p rest ih =>
    obtain ⟨k', v⟩ := p
    by_cases hk : k' = k
    · subst hk
      rw [show updateAssoc ((k', v) :: rest) k' f d = (k', f v) :: rest from by
        simp [updateAssoc]]
      simp only [List.map_cons, List.sum_cons, hf]
      rw [add_right_comm]
    · simp only [updateAssoc, if_neg hk, List.map_cons, List.sum_cons, ih]
      rw [add_assoc]

theorem mem_keys_updateAssoc {β : Type} (l : List (String × β)) (k : String)
    (f : β → β) (d : β) (x : String)
    (h : x ∈ (updateAssoc l k f d).map Prod.fst) :
    x ∈ l.map Prod.fst ∨ x = k := by
  by_cases hk : k ∈ l.map Prod.fst
  · rw [keys_updateAssoc_of_mem _ _ _ _ hk] at h
    exact Or.inl h
  · rw [keys_updateAssoc_of_not_mem _ _ _ _ hk] at h
    rcases List.mem_append.mp h with h | h
    · exact Or.inl h
    · exact Or.inr (List.mem_singleton.mp h)

/-- Records that do not carry the synthetic model marker (records with no
model count as non-synthetic: they are folded into the "unknown"
breakdown). -/
def isNonSynthetic (r : ParsedRecord) : Bool :=
  decide (r.model ≠ some "<synthetic>")

theorem bd_sum_applyDaily (g : TokenStats → Nat) (proj : UsageTokens → Nat)
    (hg : ∀ (s : TokenStats) (t : UsageTokens) (c : ℚ),
      g (s.addUsage t c) = g s + proj t)
    (hz : g TokenStats.zero = 0) (r : ParsedRecord) (a : Aggregate) :
    ((applyDaily r a).model_breakdowns.map (fun p => g p.2)).sum =
      (a.model_breakdowns.map (fun p => g p.2)).sum +
        (if isNonSynthetic r then proj r.tokens else 0) := by
  rw [applyDaily_model_breakdowns]
  cases hm : r.model with
  | none =>
    rw [show (isNonSynthetic r) = true from by simp [isNonSynthetic, hm]]
    simp only [if_true]
    exact sum_map_updateAssoc a.model_breakdowns "unknown" _ TokenStats.zero g
      (proj r.tokens) (fun v => hg v r.tokens r.cost) hz
  | some m =>
    dsimp only
    by_cases hms : m ≠ "<synthetic>"
    · rw [if_pos hms,
        show (isNonSynthetic r) = true from by simp [isNonSynthetic, hm, hms]]
      simp only [if_true]
      exact sum_map_updateAssoc a.model_breakdowns m _ TokenStats.zero g
        (proj r.tokens) (fun v => hg v r.tokens r.cost) hz
    · rw [if_neg hms,
        show (isNonSynthetic r) = false from by
          simp [isNonSynthetic, hm, not_not.mp hms]]
      simp

theorem applyDaily_synthetic_models (r : ParsedRecord) (a : Aggregate)
    (h : "<synthetic>" ∉ a.models_used) :
    "<synthetic>" ∉ (applyDaily r a).models_used := by
  rw [applyDaily_models_used]
  cases r.model with
  | none => exact h
  | some m =>
    dsimp only
    by_cases hms : m ≠ "<synthetic>"
    · rw [if_pos hms, push_model_models_used]
      split
      · exact h
      · intro hc
        rcases List.mem_append.mp hc with hc | hc
        · exact h hc
        · exact hms (List.mem_singleton.mp hc).symm
    · rw [if_neg hms]
      exact h

theorem applyDaily_synthetic_bd (r : ParsedRecord) (a : Aggregate)
    (h : "<synthetic>" ∉ a.model_breakdowns.map Prod.fst) :
    "<synthetic>" ∉ (applyDaily r a).model_breakdowns.map Prod.fst := by
  rw [applyDaily_model_breakdowns]
  cases r.model with
  | none =>
    intro hc
    rcases mem_keys_updateAssoc _ _ _ _ _ hc with hc | hc
    · exact h hc
    · exact absurd hc (by decide)
  | some m =>
    dsimp only
    by_cases hms : m ≠ "<synthetic>"
    · rw [if_pos hms]
      intro hc
      rcases mem_keys_updateAssoc _ _ _ _ _ hc with hc | hc
      · exact h hc
      · exact hms hc.symm
    · rw [if_neg hms]
      exact h

/-- Folding records into one bucket adds up any additive measure. -/
theorem foldl_applyDaily_measure {M : Type} [AddCommMonoid M]
    (proj : Aggregate → M) (projR : ParsedRecord → M)
    (hstep : ∀ r a, proj (applyDaily r a) = proj a + projR r)
    (l : List ParsedRecord) : ∀ (a : Aggregate),
    proj (l.foldl (fun acc r => applyDaily r acc) a) =
      proj a + (l.map projR).sum := by
  induction l with
  | nil => intro a; simp
  | cons r rest ih =>
    intro a
    rw [List.foldl_cons, ih (applyDaily r a), hstep, List.map_cons,
      List.sum_cons, add_assoc]

theorem foldl_applyDaily_pres (P : Aggregate → Prop)
    (hstep : ∀ r a, P a → P (applyDaily r a)) (l : List ParsedRecord) :
    ∀ (a : Aggregate), P a → P (l.foldl (fun acc r => applyDaily r acc) a) := by
  induction l with
  | nil => intro a h; exact h
  | cons r rest ih =>
    intro a h
    rw [List.foldl_cons]
    exact ih (applyDaily r a) (hstep r a h)

theorem sum_map_ite_filter {α M : Type} [AddCommMonoid M] (p : α → Bool)
    (f : α → M) (l : List α) :
    (l.map (fun x => if p x then f x else 0)).sum =
      ((l.filter p).map f).sum := by
  induction l with
  | nil => rfl
  | cons x xs ih =>
    rw [List.map_cons, List.sum_cons, List.filter_cons]
    by_cases h : p x
    · rw [if_pos h, if_pos h, List.map_cons, List.sum_cons, ih]
    · rw [if_neg h,
        show (if p x then x :: xs.filter p else xs.filter p) = xs.filter p from by
          simp [h],
        zero_add, ih]

/-- Claim C5: for every bucket, the sum of the per-model breakdown token
counts (the "unknown" breakdown included) equals the bucket's token totals
minus the contributions of records whose model is the literal `<synthetic>`
marker; synthetic records count in the bucket totals but appear in neither
`models_used` nor the breakdown map. -/
theorem claim_C5_breakdown_totals (np : Bool) (records : List ParsedRecord)
    (k : String) (a : Aggregate) (h : (k, a) ∈ dailyAggregates np records) :
    a.input_tokens = (((dedupRecords [] records).filter
        (fun r => decide (bucketKey np r = k))).map
        (fun r => r.tokens.input_tokens)).sum
    ∧ a.output_tokens = (((dedupRecords [] records).filter
        (fun r => decide (bucketKey np r = k))).map
        (fun r => r.tokens.output_tokens)).sum
    ∧ a.cache_creation_tokens = (((dedupRecords [] records).filter
        (fun r => decide (bucketKey np r = k))).map
        (fun r => r.tokens.cache_creation_input_tokens)).sum
    ∧ a.cache_read_tokens = (((dedupRecords [] records).filter
        (fun r => decide (bucketKey np r = k))).map
        (fun r => r.tokens.cache_read_input_tokens)).sum
    ∧ (a.model_breakdowns.map (fun p => p.2.input_tokens)).sum =
        ((((dedupRecords [] records).filter
          (fun r => decide (bucketKey np r = k))).filter isNonSynthetic).map
          (fun r => r.tokens.input_tokens)).sum
    ∧ (a.model_breakdowns.map (fun p => p.2.output_tokens)).sum =
        ((((dedupRecords [] records).filter
          (fun r => decide (bucketKey np r = k))).filter isNonSynthetic).map
          (fun r => r.tokens.output_tokens)).sum
    ∧ (a.model_breakdowns.map (fun p => p.2.cache_creation_tokens)).sum =
        ((((dedupRecords [] records).filter
          (fun r => decide (bucketKey np r = k))).filter isNonSynthetic).map
          (fun r => r.tokens.cache_creation_input_tokens)).sum
    ∧ (a.model_breakdowns.map (fun p => p.2.cache_read_tokens)).sum =
        ((((dedupRecords [] records).filter
          (fun r => decide (bucketKey np r = k))).filter isNonSynthetic).map
          (fun r => r.tokens.cache_read_input_tokens)).sum
    ∧ "<synthetic>" ∉ a.models_used
    ∧ "<synthetic>" ∉ a.model_breakdowns.map Prod.fst := by
  rw [dailyAggregates_eq_foldBuckets] at h
  have hmem := mem_foldBuckets_eq _ _ _ _ _ h
  have hfeq : (dedupRecords [] records).filter
      (fun e => decide ((fun r => some (bucketKey np r)) e = some k)) =
      (dedupRecords [] records).filter (fun r => decide (bucketKey np r = k)) :=
    List.filter_congr (fun x _ => by simp)
  rw [hfeq] at hmem
  obtain ⟨ha, _⟩ := hmem
  subst ha
  refine ⟨?_, ?_, ?_, ?_, ?_, ?_, ?_, ?_, ?_, ?_⟩
  · rw [foldl_applyDaily_measure (fun ag => ag.input_tokens)
      (fun r => r.tokens.input_tokens) applyDaily_input_tokens]
    simp [Aggregate.zero]
  · rw [foldl_applyDaily_measure (fun ag => ag.output_tokens)
      (fun r => r.tokens.output_tokens) applyDaily_output_tokens]
    simp [Aggregate.zero]
  · rw [foldl_applyDaily_measure (fun ag => ag.cache_creation_tokens)
      (fun r => r.tokens.cache_creation_input_tokens)
      applyDaily_cache_creation_tokens]
    simp [Aggregate.zero]
  · rw [foldl_applyDaily_measure (fun ag => ag.cache_read_tokens)
      (fun r => r.tokens.cache_read_input_tokens)
      applyDaily_cache_read_tokens]
    simp [Aggregate.zero]
  · rw [foldl_applyDaily_measure
      (fun ag => (ag.model_breakdowns.map (fun p => p.2.input_tokens)).sum)
      (fun r => if isNonSynthetic r then r.tokens.input_tokens else 0)
      (bd_sum_applyDaily (fun s => s.input_tokens)
        (fun t => t.input_tokens) (fun _ _ _ => rfl) rfl),
      sum_map_ite_filter]
    simp [Aggregate.zero]
  · rw [foldl_applyDaily_measure
      (fun ag => (ag.model_breakdowns.map (fun p => p.2.output_tokens)).sum)
      (fun r => if isNonSynthetic r then r.tokens.output_tokens else 0)
      (bd_sum_applyDaily (fun s => s.output_tokens)
        (fun t => t.output_tokens) (fun _ _ _ => rfl) rfl),
      sum_map_ite_filter]
    simp [Aggregate.zero]
  · rw [foldl_applyDaily_measure
      (fun ag => (ag.model_breakdowns.map (fun p => p.2.cache_creation_tokens)).sum)
      (fun r => if isNonSynthetic r then r.tokens.cache_creation_input_tokens else 0)
      (bd_sum_applyDaily (fun s => s.cache_creation_tokens)
        (fun t => t.cache_creation_input_tokens) (fun _ _ _ => rfl) rfl),
      sum_map_ite_filter]
    simp [Aggregate.zero]
  · rw [foldl_applyDaily_measure
      (fun ag => (ag.model_breakdowns.map (fun p => p.2.cache_read_tokens)).sum)
      (fun r => if isNonSynthetic r then r.tokens.cache_read_input_tokens else 0)
      (bd_sum_applyDaily (fun s => s.cache_read_tokens)
        (fun t => t.cache_read_input_tokens) (fun _ _ _ => rfl) rfl),
      sum_map_ite_filter]
    simp [Aggregate.zero]
  · exact foldl_applyDaily_pres (fun ag => "<synthetic>" ∉ ag.models_used)
      applyDaily_synthetic_models _ Aggregate.zero (by simp [Aggregate.zero])
  · exact foldl_applyDaily_pres
      (fun ag => "<synthetic>" ∉ ag.model_breakdowns.map Prod.fst)
      applyDaily_synthetic_bd _ Aggregate.zero (by simp [Aggregate.zero])

/-- Closed instance of claim C5: a bucket fed by a normal, a model-less, and a
synthetic record. -/
theorem claim_C5_breakdown_totals_witness :
    ("<synthetic>" ∉
      (Aggregate.mk 6 9 0 0 0 ["A"]
        [("A", ⟨1, 2, 0, 0, 0⟩), ("unknown", ⟨2, 3, 0, 0, 0⟩)]).models_used) :=
  (claim_C5_breakdown_totals false
    [⟨none, "2024-01-01", "p", some "A", ⟨1, 2, 0, 0⟩, 0⟩,
     ⟨none, "2024-01-01", "p", none, ⟨2, 3, 0, 0⟩, 0⟩,
     ⟨none, "2024-01-01", "p", some "<synthetic>", ⟨3, 4, 0, 0⟩, 0⟩]
    "2024-01-01"
    (Aggregate.mk 6 9 0 0 0 ["A"]
      [("A", ⟨1, 2, 0, 0, 0⟩), ("unknown", ⟨2, 3, 0, 0, 0⟩)])
    (by simp [dailyAggregates, dailyFoldStep, bucketKey, applyDaily,
      Aggregate.push_model, update_model_breakdowns, updateAssoc,
      Aggregate.zero, TokenStats.addUsage, TokenStats.zero])).2.2.2.2.2.2.2.2.1

/-! ## Open-failure semantics (towards claim C10) -/

theorem sort_files_by_timestamp_perm (parseTs : String → Option Int)
    (files : List FileData) :
    (sort_files_by_timestamp parseTs files).Perm files := by
  have h := (stableSortBy_perm
    (fun a b : FileData × Option Int => optTsLe a.2 b.2)
    (files.map (fun file => (file, get_earliest_timestamp parseTs file)))).map
    Prod.fst
  have h2 : (files.map
      (fun file => (file, get_earliest_timestamp parseTs file))).map
      Prod.fst = files := by
    rw [List.map_map]
    exact List.map_id' files
  rwa [h2] at h

theorem mapExcept_error {α β : Type} (g : α → Except String β) (l : List α)
    (x : α) (hx : x ∈ l) (e : String) (he : g x = Except.error e) :
    ∃ e', mapExcept g l = Except.error e' := by
  induction l with
  | nil => simp at hx
  | cons y ys ih =>
    rcases List.mem_cons.mp hx with rfl | hx'
    · exact ⟨e, by simp [mapExcept, he]⟩
    · cases hg : g y with
      | error e2 => exact ⟨e2, by simp [mapExcept, hg]⟩
      | ok v =>
        rcases ih hx' with ⟨e', he'⟩
        exact ⟨e', by simp [mapExcept, hg, he']⟩

/-- Claim C10: a file that cannot be opened yields no error in the
earliest-timestamp scan — it is treated as having no timestamp (and hence,
by claim C6, sorts after every timestamped file) — whereas the same open
failure in the parsing stage propagates as a fatal error for the whole
daily-aggregation invocation. -/
theorem claim_C10_open_failure (calcCost : UsageTokens → Option String → ℚ)
    (fmtDate : String → Option String) (parseTs : String → Option Int)
    (options : LoadOptions)
    (iterA : List (String × Aggregate) → List (String × Aggregate))
    (iterB : List (String × TokenStats) → List (String × TokenStats))
    (files : List FileData) (f : FileData)
    (hmem : f ∈ projectFileFilter options.project files)
    (hnone : f.content = none) :
    get_earliest_timestamp parseTs f = none
    ∧ parse_file_records options.mode
        (if options.mode = CostMode.Display then none else some calcCost)
        fmtDate (extract_project_from_path f.path) f =
        Except.error "failed to open file"
    ∧ ∃ e, load_daily_usage_data calcCost fmtDate parseTs options iterA iterB
        files = Except.error e := by
  refine ⟨by simp [get_earliest_timestamp, hnone],
    by simp [parse_file_records, hnone], ?_⟩
  unfold load_daily_usage_data
  have hne : ¬ ((projectFileFilter options.project files).isEmpty = true) := by
    cases hl : projectFileFilter options.project files with
    | nil => rw [hl] at hmem; simp at hmem
    | cons a as => simp
  rw [if_neg hne]
  have hfmem : f ∈ sort_files_by_timestamp parseTs
      (projectFileFilter options.project files) :=
    (sort_files_by_timestamp_perm parseTs _).mem_iff.mpr hmem
  have hparse : parse_file_records options.mode
      (if options.mode = CostMode.Display then none else some calcCost)
      fmtDate (extract_project_from_path f.path) f =
      Except.error "failed to open file" := by
    simp [parse_file_records, hnone]
  rcases mapExcept_error
    (fun file => parse_file_records options.mode
      (if options.mode = CostMode.Display then none else some calcCost)
      fmtDate (extract_project_from_path file.path) file)
    (sort_files_by_timestamp parseTs (projectFileFilter options.project files))
    f hfmem _ hparse with ⟨e', he'⟩
  refine ⟨e', ?_⟩
  dsimp only
  rw [he']

/-- Closed instance of claim C10 at a concrete unopenable file. -/
theorem claim_C10_open_failure_witness :
    get_earliest_timestamp (fun _ => none) ⟨["p"], none⟩ = none :=
  (claim_C10_open_failure (fun _ _ => 0) (fun _ => none) (fun _ => none)
    ⟨CostMode.Auto, SortOrder.Desc, false, none, none, none⟩ id id
    [⟨["p"], none⟩] ⟨["p"], none⟩ (by simp [projectFileFilter]) rfl).1

/-! ## Structural decomposition of the daily loader (towards C8 and C2) -/

/-- The post-parse stage of `load_daily_usage_data`
(src/data_loader.rs lines 527-658) as a function of the parsed record
stream. -/
def dailyResultsOf (options : LoadOptions)
    (iterA : List (String × Aggregate) → List (String × Aggregate))
    (iterB : List (String × TokenStats) → List (String × TokenStats))
    (records : List ParsedRecord) : List DailyUsage :=
  let np := options.group_by_project || options.project.isSome
  let results := (iterA (dailyAggregates np records)).map
    (finalizeDailyBucket iterB)
  let filtered := filter_by_date_range results (fun item => item.date)
    options.since options.until_
  let final_results :=
    match options.project with
    | some project =>
      filtered.filter (fun item => decide (item.project = some project))
    | none => filtered
  sort_by_date final_results (fun item => item.date) options.order

theorem load_daily_eq (calcCost : UsageTokens → Option String → ℚ)
    (fmtDate : String → Option String) (parseTs : String → Option Int)
    (options : LoadOptions)
    (iterA : List (String × Aggregate) → List (String × Aggregate))
    (iterB : List (String × TokenStats) → List (String × TokenStats))
    (files : List FileData) :
    load_daily_usage_data calcCost fmtDate parseTs options iterA iterB files =
      if (projectFileFilter options.project files).isEmpty then Except.ok []
      else
        (mapExcept
          (fun file => parse_file_records options.mode
            (if options.mode = CostMode.Display then none else some calcCost)
            fmtDate (extract_project_from_path file.path) file)
          (sort_files_by_timestamp parseTs
            (projectFileFilter options.project files))).map
          (fun parsed => dailyResultsOf options iterA iterB parsed.flatten) := by
  unfold load_daily_usage_data dailyResultsOf
  dsimp only
  by_cases hE : (projectFileFilter options.project files).isEmpty = true
  · rw [if_pos hE, if_pos hE]
  · rw [if_neg hE, if_neg hE]
    cases mapExcept
        (fun file => parse_file_records options.mode
          (if options.mode = CostMode.Display then none else some calcCost)
          fmtDate (extract_project_from_path file.path) file)
        (sort_files_by_timestamp parseTs
          (projectFileFilter options.project files)) with
    | error e => rfl
    | ok parsed => rfl

theorem mem_filter_by_date_range {α : Type} (x : α) (items : List α)
    (get_date : α → String) (sinceOpt untilOpt : Option String)
    (h : x ∈ filter_by_date_range items get_date sinceOpt untilOpt) :
    x ∈ items := by
  unfold filter_by_date_range at h
  split at h
  · exact h
  · exact (List.mem_filter.mp h).1

theorem sort_by_date_perm {α : Type} (items : List α) (get_date : α → String)
    (order : SortOrder) :
    (sort_by_date items get_date order).Perm items :=
  stableSortBy_perm _ _

/-- Every bucket of the daily output is the finalisation of some
aggregate-map entry. -/
theorem mem_load_daily_structure (calcCost : UsageTokens → Option String → ℚ)
    (fmtDate : String → Option String) (parseTs : String → Option Int)
    (options : LoadOptions)
    (iterA : List (String × Aggregate) → List (String × Aggregate))
    (iterB : List (String × TokenStats) → List (String × TokenStats))
    (files : List FileData) (out : List DailyUsage) (d : DailyUsage)
    (hout : load_daily_usage_data calcCost fmtDate parseTs options iterA iterB
      files = Except.ok out)
    (hd : d ∈ out) :
    ∃ p : String × Aggregate, d = finalizeDailyBucket iterB p := by
  rw [load_daily_eq] at hout
  split at hout
  · have hnil : out = [] := by
      have := Except.ok.inj hout
      exact this.symm
    subst hnil
    simp at hd
  · cases hmE : mapExcept
        (fun file => parse_file_records options.mode
          (if options.mode = CostMode.Display then none else some calcCost)
          fmtDate (extract_project_from_path file.path) file)
        (sort_files_by_timestamp parseTs
          (projectFileFilter options.project files)) with
    | error e => rw [hmE] at hout; simp [Except.map] at hout
    | ok parsed =>
      rw [hmE] at hout
      have hout2 : dailyResultsOf options iterA iterB parsed.flatten = out := by
        simpa [Except.map] using hout
      subst hout2
      unfold dailyResultsOf at hd
      have hd2 := (sort_by_date_perm _ _ _).subset hd
      have hd3 : d ∈ filter_by_date_range
          ((iterA (dailyAggregates
            (options.group_by_project || options.project.isSome)
            parsed.flatten)).map (finalizeDailyBucket iterB))
          (fun item => item.date) options.since options.until_ := by
        cases hp : options.project with
        | none => rw [hp] at hd2; exact hd2
        | some project =>
          rw [hp] at hd2
          exact (List.mem_filter.mp hd2).1
      have hd4 := mem_filter_by_date_range _ _ _ _ _ hd3
      rcases List.mem_map.mp hd4 with ⟨p, _, hpd⟩
      exact ⟨p, hpd.symm⟩

/-- Claim C8 (amended): for every bucket produced by aggregation the
finalized model-breakdown list is sorted descending by cost and consists of
exactly the bucket's non-synthetic breakdown-map entries; breakdowns with
equal cost appear in the order the unspecified hash-map iteration yields
them, which need not be model encounter order. -/
theorem claim_C8_breakdowns_sorted_desc
    (calcCost : UsageTokens → Option String → ℚ)
    (fmtDate : String → Option String) (parseTs : String → Option Int)
    (options : LoadOptions)
    (iterA : List (String × Aggregate) → List (String × Aggregate))
    (iterB : List (String × TokenStats) → List (String × TokenStats))
    (files : List FileData) (out : List DailyUsage)
    (hB : ∀ l : List (String × TokenStats), (iterB l).Perm l)
    (hout : load_daily_usage_data calcCost fmtDate parseTs options iterA iterB
      files = Except.ok out) :
    (∀ bd : List (String × TokenStats),
      (toBreakdownList iterB bd).Pairwise (fun a b => b.cost ≤ a.cost)
      ∧ (toBreakdownList iterB bd).Perm
          ((bd.filter (fun p => decide (p.1 ≠ "<synthetic>"))).map
            toModelBreakdown))
    ∧ ∀ d ∈ out, ∃ p : String × Aggregate,
        d = finalizeDailyBucket iterB p := by
  constructor
  · intro bd
    constructor
    · have hpw := stableSortBy_pairwise
        (fun a b : ModelBreakdown => decide (b.cost ≤ a.cost))
        (fun a b => by
          rcases le_total b.cost a.cost with h | h
          · exact Or.inl (decide_eq_true h)
          · exact Or.inr (decide_eq_true h))
        (fun a b c h1 h2 =>
          decide_eq_true (le_trans (of_decide_eq_true h2) (of_decide_eq_true h1)))
        (((iterB bd).filter (fun p => decide (p.1 ≠ "<synthetic>"))).map
          toModelBreakdown)
      exact hpw.imp (fun h => of_decide_eq_true h)
    · exact (stableSortBy_perm _ _).trans
        (((hB bd).filter (fun p => decide (p.1 ≠ "<synthetic>"))).map
          toModelBreakdown)
  · intro d hd
    exact mem_load_daily_structure calcCost fmtDate parseTs options iterA iterB
      files out d hout hd

/-- Counterexample to claim C8 as stated: with models encountered in the
order A then B at equal cost, a run whose breakdown map iterates in reverse
order (a legitimate `HashMap` iteration order, as the permutation fact
attests) produces the breakdown list [B, A] — not encounter order, which the
`models_used` list records as [A, B]. -/
theorem claim_C8_counterexample :
    (∀ l : List (String × TokenStats), (List.reverse l).Perm l)
    ∧ load_daily_usage_data (fun _ _ => 0) (fun s => some s) (fun _ => some 0)
        ⟨CostMode.Display, SortOrder.Desc, false, none, none, none⟩ id
        List.reverse
        [⟨["projects", "p1", "a.jsonl"],
          some [some ⟨some "2024-01-01",
              some ⟨some ⟨some 1, some 0, none, none⟩, some "A", none⟩,
              none, none, none⟩,
            some ⟨some "2024-01-01",
              some ⟨some ⟨some 2, some 0, none, none⟩, some "B", none⟩,
              none, none, none⟩]⟩] =
      Except.ok [⟨"2024-01-01", 3, 0, 0, 0, 0, ["A", "B"],
        [⟨"B", 2, 0, 0, 0, 0⟩, ⟨"A", 1, 0, 0, 0, 0⟩], none⟩] := by
  constructor
  · exact fun l => List.reverse_perm l
  · simp [load_daily_usage_data, projectFileFilter, sort_files_by_timestamp,
      stableSortBy, insertLe, get_earliest_timestamp, earliestStep, mapExcept,
      parse_file_records, parse_usage_line, extract_usage_tokens,
      create_unique_hash, calculate_cost_for_entry, dailyAggregates,
      dailyFoldStep, bucketKey, applyDaily, Aggregate.push_model,
      update_model_breakdowns, updateAssoc, Aggregate.zero,
      TokenStats.addUsage, TokenStats.zero, finalizeDailyBucket,
      toBreakdownList, toModelBreakdown, splitOnNul, filter_by_date_range,
      sort_by_date]

/-- Closed instance of the amended claim C8 at a concrete run. -/
theorem claim_C8_breakdowns_sorted_desc_witness :
    (toBreakdownList id [("A", ⟨1, 0, 0, 0, 0⟩)]).Pairwise
      (fun a b => b.cost ≤ a.cost) :=
  ((claim_C8_breakdowns_sorted_desc (fun _ _ => 0) (fun s => some s)
    (fun _ => some 0)
    ⟨CostMode.Display, SortOrder.Desc, false, none, none, none⟩ id id
    [⟨["projects", "p1", "a.jsonl"],
      some [some ⟨some "2024-01-01",
          some ⟨some ⟨some 1, some 0, none, none⟩, some "A", none⟩,
          none, none, none⟩,
        some ⟨some "2024-01-01",
          some ⟨some ⟨some 2, some 0, none, none⟩, some "B", none⟩,
          none, none, none⟩]⟩]
    [⟨"2024-01-01", 3, 0, 0, 0, 0, ["A", "B"],
      [⟨"A", 1, 0, 0, 0, 0⟩, ⟨"B", 2, 0, 0, 0, 0⟩], none⟩]
    (fun l => List.Perm.refl l)
    (by simp [load_daily_usage_data, projectFileFilter, sort_files_by_timestamp,
      stableSortBy, insertLe, get_earliest_timestamp, earliestStep, mapExcept,
      parse_file_records, parse_usage_line, extract_usage_tokens,
      create_unique_hash, calculate_cost_for_entry, dailyAggregates,
      dailyFoldStep, bucketKey, applyDaily, Aggregate.push_model,
      update_model_breakdowns, updateAssoc, Aggregate.zero,
      TokenStats.addUsage, TokenStats.zero, finalizeDailyBucket,
      toBreakdownList, toModelBreakdown, splitOnNul, filter_by_date_range,
      sort_by_date])).1 [("A", ⟨1, 0, 0, 0, 0⟩)]).1

/-! ## Determinism lemmas (towards claim C2) -/

/-- The comparator used by `sort_by_date`, named for reasoning. -/
def dateCmpLe {α : Type} (get_date : α → String) (order : SortOrder)
    (a b : α) : Bool :=
  match order with
  | SortOrder.Asc => decide (get_date a ≤ get_date b)
  | SortOrder.Desc => decide (get_date b ≤ get_date a)

theorem sort_by_date_eq_stableSortBy {α : Type} (items : List α)
    (get_date : α → String) (order : SortOrder) :
    sort_by_date items get_date order =
      stableSortBy (dateCmpLe get_date order) items := rfl

theorem dateCmpLe_total {α : Type} (get_date : α → String) (order : SortOrder)
    (a b : α) :
    dateCmpLe get_date order a b = true ∨ dateCmpLe get_date order b a = true := by
  cases order with
  | Asc =>
    rcases le_total (get_date a) (get_date b) with h | h
    · exact Or.inl (decide_eq_true h)
    · exact Or.inr (decide_eq_true h)
  | Desc =>
    rcases le_total (get_date b) (get_date a) with h | h
    · exact Or.inl (decide_eq_true h)
    · exact Or.inr (decide_eq_true h)

theorem dateCmpLe_trans {α : Type} (get_date : α → String) (order : SortOrder)
    (a b c : α) (h1 : dateCmpLe get_date order a b = true)
    (h2 : dateCmpLe get_date order b c = true) :
    dateCmpLe get_date order a c = true := by
  cases order with
  | Asc =>
    exact decide_eq_true
      (le_trans (of_decide_eq_true h1) (of_decide_eq_true h2))
  | Desc =>
    exact decide_eq_true
      (le_trans (of_decide_eq_true h2) (of_decide_eq_true h1))

theorem dateCmpLe_antisymm {α : Type} (get_date : α → String)
    (order : SortOrder) (a b : α) (h1 : dateCmpLe get_date order a b = true)
    (h2 : dateCmpLe get_date order b a = true) :
    get_date a = get_date b := by
  cases order with
  | Asc => exact le_antisymm (of_decide_eq_true h1) (of_decide_eq_true h2)
  | Desc => exact le_antisymm (of_decide_eq_true h2) (of_decide_eq_true h1)

/-- Sorting by date is insensitive to the input order as soon as no two
distinct elements share a date. -/
theorem sort_by_date_map_eq {α : Type} (get_date : α → String)
    (order : SortOrder) (l₁ l₂ : List α) (hperm : l₁.Perm l₂)
    (hinj : ∀ a ∈ l₁, ∀ b ∈ l₁, get_date a = get_date b → a = b) :
    sort_by_date l₁ get_date order = sort_by_date l₂ get_date order := by
  rw [sort_by_date_eq_stableSortBy, sort_by_date_eq_stableSortBy]
  apply sorted_perm_eq (dateCmpLe get_date order)
  · exact (stableSortBy_perm _ _).trans (hperm.trans (stableSortBy_perm _ _).symm)
  · exact stableSortBy_pairwise _ (dateCmpLe_total get_date order)
      (dateCmpLe_trans get_date order) l₁
  · exact stableSortBy_pairwise _ (dateCmpLe_total get_date order)
      (dateCmpLe_trans get_date order) l₂
  · intro a ha b hb hab hba
    have ha' : a ∈ l₁ := (stableSortBy_perm _ _).subset ha
    have hb' : b ∈ l₁ := (stableSortBy_perm _ _).subset hb
    exact hinj a ha' b hb' (dateCmpLe_antisymm get_date order a b hab hba)

/-- The finalized breakdown list does not depend on the map iteration order
when the bucket's non-synthetic breakdown costs are pairwise distinct. -/
theorem toBreakdownList_iter_eq
    (iterB₁ iterB₂ : List (String × TokenStats) → List (String × TokenStats))
    (bd : List (String × TokenStats))
    (h₁ : ∀ l, (iterB₁ l).Perm l) (h₂ : ∀ l, (iterB₂ l).Perm l)
    (hnd : ((bd.filter (fun q => decide (q.1 ≠ "<synthetic>"))).map
      (fun q => q.2.cost)).Nodup) :
    toBreakdownList iterB₁ bd = toBreakdownList iterB₂ bd := by
  have htot : ∀ a b : ModelBreakdown,
      (decide (b.cost ≤ a.cost)) = true ∨ (decide (a.cost ≤ b.cost)) = true := by
    intro a b
    rcases le_total b.cost a.cost with h | h
    · exact Or.inl (decide_eq_true h)
    · exact Or.inr (decide_eq_true h)
  have htrans : ∀ a b c : ModelBreakdown,
      (decide (b.cost ≤ a.cost)) = true → (decide (c.cost ≤ b.cost)) = true →
      (decide (c.cost ≤ a.cost)) = true :=
    fun a b c h1 h2 =>
      decide_eq_true (le_trans (of_decide_eq_true h2) (of_decide_eq_true h1))
  unfold toBreakdownList
  apply sorted_perm_eq (fun a b : ModelBreakdown => decide (b.cost ≤ a.cost))
  · exact (stableSortBy_perm _ _).trans
      ((((h₁ bd).filter _).map toModelBreakdown).trans
        ((((h₂ bd).filter _).map toModelBreakdown).symm.trans
          (stableSortBy_perm _ _).symm))
  · exact stableSortBy_pairwise _ htot htrans _
  · exact stableSortBy_pairwise _ htot htrans _
  · intro a ha b hb hab hba
    have hcost : a.cost = b.cost :=
      le_antisymm (of_decide_eq_true hba) (of_decide_eq_true hab)
    have hmap : ∀ x, x ∈ stableSortBy
        (fun a b : ModelBreakdown => decide (b.cost ≤ a.cost))
        (((iterB₁ bd).filter (fun p => decide (p.1 ≠ "<synthetic>"))).map
          toModelBreakdown) →
        ∃ q ∈ bd.filter (fun p => decide (p.1 ≠ "<synthetic>")),
          toModelBreakdown q = x := by
      intro x hx
      have hx1 := (stableSortBy_perm _ _).subset hx
      rcases List.mem_map.mp hx1 with ⟨q, hq, hqx⟩
      exact ⟨q, ((h₁ bd).filter _).subset hq, hqx⟩
    rcases hmap a ha with ⟨qa, hqa, hqa2⟩
    rcases hmap b hb with ⟨qb, hqb, hqb2⟩
    have hc : qa.2.cost = qb.2.cost := by
      rw [show qa.2.cost = a.cost from by rw [← hqa2]; rfl,
        show qb.2.cost = b.cost from by rw [← hqb2]; rfl, hcost]
    have hq : qa = qb :=
      List.inj_on_of_nodup_map hnd hqa hqb hc
    rw [← hqa2, ← hqb2, hq]

theorem filter_by_date_range_perm {α : Type} (get_date : α → String)
    (sinceOpt untilOpt : Option String) (l₁ l₂ : List α) (h : l₁.Perm l₂) :
    (filter_by_date_range l₁ get_date sinceOpt untilOpt).Perm
      (filter_by_date_range l₂ get_date sinceOpt untilOpt) := by
  unfold filter_by_date_range
  split
  · exact h
  · exact h.filter _

/-- The post-parse daily stage is independent of the two map iteration
orders provided the buckets carry pairwise-distinct dates and each bucket's
non-synthetic breakdown costs are pairwise distinct. -/
theorem dailyResultsOf_iter_eq (options : LoadOptions)
    (iterA₁ iterA₂ : List (String × Aggregate) → List (String × Aggregate))
    (iterB₁ iterB₂ : List (String × TokenStats) → List (String × TokenStats))
    (records : List ParsedRecord)
    (hA₁ : ∀ l, (iterA₁ l).Perm l) (hA₂ : ∀ l, (iterA₂ l).Perm l)
    (hB₁ : ∀ l, (iterB₁ l).Perm l) (hB₂ : ∀ l, (iterB₂ l).Perm l)
    (hdates : ((dailyAggregates
        (options.group_by_project || options.project.isSome) records).map
        (fun p => (splitOnNul p.1).1)).Nodup)
    (hcosts : ∀ p ∈ dailyAggregates
        (options.group_by_project || options.project.isSome) records,
        ((p.2.model_breakdowns.filter
          (fun q => decide (q.1 ≠ "<synthetic>"))).map
          (fun q => q.2.cost)).Nodup) :
    dailyResultsOf options iterA₁ iterB₁ records =
      dailyResultsOf options iterA₂ iterB₂ records := by
  unfold dailyResultsOf
  dsimp only
  set aggs := dailyAggregates
    (options.group_by_project || options.project.isSome) records with haggs
  have hfin : ∀ p ∈ aggs,
      finalizeDailyBucket iterB₁ p = finalizeDailyBucket iterB₂ p := by
    intro p hp
    unfold finalizeDailyBucket
    rw [toBreakdownList_iter_eq iterB₁ iterB₂ p.2.model_breakdowns hB₁ hB₂
      (hcosts p hp)]
  have hmap1 : (iterA₁ aggs).map (finalizeDailyBucket iterB₁) =
      (iterA₁ aggs).map (finalizeDailyBucket iterB₂) :=
    List.map_congr_left (fun p hp => hfin p ((hA₁ aggs).subset hp))
  rw [hmap1]
  have hres : ((iterA₁ aggs).map (finalizeDailyBucket iterB₂)).Perm
      ((iterA₂ aggs).map (finalizeDailyBucket iterB₂)) :=
    ((hA₁ aggs).map _).trans ((hA₂ aggs).map _).symm
  have hinj0 : ∀ d ∈ (iterA₁ aggs).map (finalizeDailyBucket iterB₂),
      ∀ d' ∈ (iterA₁ aggs).map (finalizeDailyBucket iterB₂),
      d.date = d'.date → d = d' := by
    intro d hd d' hd' hdd
    rcases List.mem_map.mp hd with ⟨p, hp, rfl⟩
    rcases List.mem_map.mp hd' with ⟨p', hp', rfl⟩
    have hp0 : p ∈ aggs := (hA₁ aggs).subset hp
    have hp0' : p' ∈ aggs := (hA₁ aggs).subset hp'
    have hsplit : (splitOnNul p.1).1 = (splitOnNul p'.1).1 := hdd
    have hpp : p = p' := List.inj_on_of_nodup_map hdates hp0 hp0' hsplit
    rw [hpp]
  cases hproj : options.project with
  | none =>
    simp only [hproj]
    apply sort_by_date_map_eq
    · exact filter_by_date_range_perm _ _ _ _ _ hres
    · intro a ha b hb hab
      exact hinj0 a (mem_filter_by_date_range _ _ _ _ _ ha)
        b (mem_filter_by_date_range _ _ _ _ _ hb) hab
  | some project =>
    simp only [hproj]
    apply sort_by_date_map_eq
    · exact (filter_by_date_range_perm _ _ _ _ _ hres).filter _
    · intro a ha b hb hab
      exact hinj0 a
        (mem_filter_by_date_range _ _ _ _ _ (List.mem_filter.mp ha).1)
        b (mem_filter_by_date_range _ _ _ _ _ (List.mem_filter.mp hb).1) hab

/-- The monthly re-fold stage is likewise independent of its two map
iteration orders under the corresponding distinctness conditions. -/
theorem monthly_from_daily_iter_eq (np : Bool) (order : SortOrder)
    (iterAM₁ iterAM₂ : List (String × Aggregate) → List (String × Aggregate))
    (iterBM₁ iterBM₂ : List (String × TokenStats) → List (String × TokenStats))
    (daily : List DailyUsage)
    (hA₁ : ∀ l, (iterAM₁ l).Perm l) (hA₂ : ∀ l, (iterAM₂ l).Perm l)
    (hB₁ : ∀ l, (iterBM₁ l).Perm l) (hB₂ : ∀ l, (iterBM₂ l).Perm l)
    (hdates : ((monthlyAggregates np daily).map
      (fun p => (splitOnNul p.1).1)).Nodup)
    (hcosts : ∀ p ∈ monthlyAggregates np daily,
        ((p.2.model_breakdowns.filter
          (fun q => decide (q.1 ≠ "<synthetic>"))).map
          (fun q => q.2.cost)).Nodup) :
    monthly_from_daily np order iterAM₁ iterBM₁ daily =
      monthly_from_daily np order iterAM₂ iterBM₂ daily := by
  unfold monthly_from_daily
  by_cases hE : daily.isEmpty = true
  · rw [if_pos hE, if_pos hE]
  · rw [if_neg hE, if_neg hE]
    dsimp only
    have hfin : ∀ p ∈ monthlyAggregates np daily,
        finalizeMonthlyBucket iterBM₁ p = finalizeMonthlyBucket iterBM₂ p := by
      intro p hp
      unfold finalizeMonthlyBucket
      rw [toBreakdownList_iter_eq iterBM₁ iterBM₂ p.2.model_breakdowns hB₁ hB₂
        (hcosts p hp)]
    rw [List.map_congr_left
      (fun p hp => hfin p ((hA₁ (monthlyAggregates np daily)).subset hp))]
    apply sort_by_date_map_eq
    · exact ((hA₁ _).map _).trans ((hA₂ _).map _).symm
    · intro a ha b hb hab
      rcases List.mem_map.mp ha with ⟨p, hp, rfl⟩
      rcases List.mem_map.mp hb with ⟨p', hp', rfl⟩
      have hp0 : p ∈ monthlyAggregates np daily := (hA₁ _).subset hp
      have hp0' : p' ∈ monthlyAggregates np daily := (hA₁ _).subset hp'
      have hsplit : (splitOnNul p.1).1 = (splitOnNul p'.1).1 := hab
      have hpp : p = p' := List.inj_on_of_nodup_map hdates hp0 hp0' hsplit
      rw [hpp]

/-- Claim C2 (amended): for a fixed input file list and options, the daily
and monthly aggregations are independent of the hash-map iteration orders —
hence identical across two runs — provided the buckets' dates (daily) and
months (monthly) are pairwise distinct and each bucket's non-synthetic
breakdown costs are pairwise distinct; with equal-date buckets (project
grouping) or equal-cost breakdowns, only the relative order of the tied
elements may follow the unspecified map iteration order. -/
theorem claim_C2_map_order_determinism
    (calcCost : UsageTokens → Option String → ℚ)
    (fmtDate : String → Option String) (parseTs : String → Option Int)
    (options : LoadOptions) (files : List FileData)
    (iterA₁ iterA₂ iterAM₁ iterAM₂ :
      List (String × Aggregate) → List (String × Aggregate))
    (iterB₁ iterB₂ iterBM₁ iterBM₂ :
      List (String × TokenStats) → List (String × TokenStats))
    (hA₁ : ∀ l, (iterA₁ l).Perm l) (hA₂ : ∀ l, (iterA₂ l).Perm l)
    (hB₁ : ∀ l, (iterB₁ l).Perm l) (hB₂ : ∀ l, (iterB₂ l).Perm l)
    (hAM₁ : ∀ l, (iterAM₁ l).Perm l) (hAM₂ : ∀ l, (iterAM₂ l).Perm l)
    (hBM₁ : ∀ l, (iterBM₁ l).Perm l) (hBM₂ : ∀ l, (iterBM₂ l).Perm l)
    (hdates : ∀ recs : List (List ParsedRecord),
      mapExcept
        (fun file => parse_file_records options.mode
          (if options.mode = CostMode.Display then none else some calcCost)
          fmtDate (extract_project_from_path file.path) file)
        (sort_files_by_timestamp parseTs
          (projectFileFilter options.project files)) = Except.ok recs →
      ((dailyAggregates (options.group_by_project || options.project.isSome)
        recs.flatten).map (fun p => (splitOnNul p.1).1)).Nodup)
    (hcosts : ∀ recs : List (List ParsedRecord),
      mapExcept
        (fun file => parse_file_records options.mode
          (if options.mode = CostMode.Display then none else some calcCost)
          fmtDate (extract_project_from_path file.path) file)
        (sort_files_by_timestamp parseTs
          (projectFileFilter options.project files)) = Except.ok recs →
      ∀ p ∈ dailyAggregates (options.group_by_project || options.project.isSome)
        recs.flatten,
        ((p.2.model_breakdowns.filter
          (fun q => decide (q.1 ≠ "<synthetic>"))).map
          (fun q => q.2.cost)).Nodup)
    (hmdates : ∀ dl : List DailyUsage,
      load_daily_usage_data calcCost fmtDate parseTs options iterA₁ iterB₁
        files = Except.ok dl →
      ((monthlyAggregates (options.group_by_project || options.project.isSome)
        dl).map (fun p => (splitOnNul p.1).1)).Nodup)
    (hmcosts : ∀ dl : List DailyUsage,
      load_daily_usage_data calcCost fmtDate parseTs options iterA₁ iterB₁
        files = Except.ok dl →
      ∀ p ∈ monthlyAggregates (options.group_by_project || options.project.isSome)
        dl,
        ((p.2.model_breakdowns.filter
          (fun q => decide (q.1 ≠ "<synthetic>"))).map
          (fun q => q.2.cost)).Nodup) :
    load_daily_usage_data calcCost fmtDate parseTs options iterA₁ iterB₁ files =
      load_daily_usage_data calcCost fmtDate parseTs options iterA₂ iterB₂ files
    ∧ load_monthly_usage_data calcCost fmtDate parseTs options iterA₁ iterB₁
        iterAM₁ iterBM₁ files =
      load_monthly_usage_data calcCost fmtDate parseTs options iterA₂ iterB₂
        iterAM₂ iterBM₂ files := by
  have hdaily : load_daily_usage_data calcCost fmtDate parseTs options iterA₁
      iterB₁ files =
      load_daily_usage_data calcCost fmtDate parseTs options iterA₂ iterB₂
        files := by
    rw [load_daily_eq, load_daily_eq]
    by_cases hE : (projectFileFilter options.project files).isEmpty = true
    · rw [if_pos hE, if_pos hE]
    · rw [if_neg hE, if_neg hE]
      cases hmE : mapExcept
          (fun file => parse_file_records options.mode
            (if options.mode = CostMode.Display then none else some calcCost)
            fmtDate (extract_project_from_path file.path) file)
          (sort_files_by_timestamp parseTs
            (projectFileFilter options.project files)) with
      | error e => rfl
      | ok recs =>
        simp only [Except.map]
        exact congrArg Except.ok
          (dailyResultsOf_iter_eq options iterA₁ iterA₂ iterB₁ iterB₂
            recs.flatten hA₁ hA₂ hB₁ hB₂ (hdates recs hmE) (hcosts recs hmE))
  refine ⟨hdaily, ?_⟩
  unfold load_monthly_usage_data
  rw [← hdaily]
  cases hdl : load_daily_usage_data calcCost fmtDate parseTs options iterA₁
      iterB₁ files with
  | error e => rfl
  | ok dl =>
    simp only [Except.map]
    exact congrArg Except.ok
      (monthly_from_daily_iter_eq
        (options.group_by_project || options.project.isSome) options.order
        iterAM₁ iterAM₂ iterBM₁ iterBM₂ dl hAM₁ hAM₂ hBM₁ hBM₂
        (hmdates dl hdl) (hmcosts dl hdl))

/-- Counterexample to claim C2 as stated: with project grouping, two projects
on the same date occupy two buckets with equal dates; two legitimate map
iteration orders (identity and reversal — the permutation fact attests both)
produce the same buckets in different orders, so the result lists are not
identical. -/
theorem claim_C2_counterexample :
    (∀ l : List (String × Aggregate), (List.reverse l).Perm l)
    ∧ load_daily_usage_data (fun _ _ => 0) (fun _ => some "2024-01-01")
        (fun s => if s = "t1" then some 1 else some 2)
        ⟨CostMode.Display, SortOrder.Desc, true, none, none, none⟩ id id
        [⟨["projects", "p1", "a.jsonl"],
          some [some ⟨some "t1",
            some ⟨some ⟨some 1, some 0, none, none⟩, none, none⟩,
            none, none, none⟩]⟩,
         ⟨["projects", "p2", "b.jsonl"],
          some [some ⟨some "t2",
            some ⟨some ⟨some 2, some 0, none, none⟩, none, none⟩,
            none, none, none⟩]⟩] =
      Except.ok
        [⟨"2024-01-01", 1, 0, 0, 0, 0, [], [⟨"unknown", 1, 0, 0, 0, 0⟩],
          some "p1"⟩,
         ⟨"2024-01-01", 2, 0, 0, 0, 0, [], [⟨"unknown", 2, 0, 0, 0, 0⟩],
          some "p2"⟩]
    ∧ load_daily_usage_data (fun _ _ => 0) (fun _ => some "2024-01-01")
        (fun s => if s = "t1" then some 1 else some 2)
        ⟨CostMode.Display, SortOrder.Desc, true, none, none, none⟩
        List.reverse id
        [⟨["projects", "p1", "a.jsonl"],
          some [some ⟨some "t1",
            some ⟨some ⟨some 1, some 0, none, none⟩, none, none⟩,
            none, none, none⟩]⟩,
         ⟨["projects", "p2", "b.jsonl"],
          some [some ⟨some "t2",
            some ⟨some ⟨some 2, some 0, none, none⟩, none, none⟩,
            none, none, none⟩]⟩] =
      Except.ok
        [⟨"2024-01-01", 2, 0, 0, 0, 0, [], [⟨"unknown", 2, 0, 0, 0, 0⟩],
          some "p2"⟩,
         ⟨"2024-01-01", 1, 0, 0, 0, 0, [], [⟨"unknown", 1, 0, 0, 0, 0⟩],
          some "p1"⟩]
    ∧ (Except.ok
        [⟨"2024-01-01", 1, 0, 0, 0, 0, [], [⟨"unknown", 1, 0, 0, 0, 0⟩],
          some "p1"⟩,
         ⟨"2024-01-01", 2, 0, 0, 0, 0, [], [⟨"unknown", 2, 0, 0, 0, 0⟩],
          some "p2"⟩] :
        Except String (List DailyUsage)) ≠
      Except.ok
        [⟨"2024-01-01", 2, 0, 0, 0, 0, [], [⟨"unknown", 2, 0, 0, 0, 0⟩],
          some "p2"⟩,
         ⟨"2024-01-01", 1, 0, 0, 0, 0, [], [⟨"unknown", 1, 0, 0, 0, 0⟩],
          some "p1"⟩] := by
  refine ⟨fun l => List.reverse_perm l, ?_, ?_, by simp⟩
  · simp [load_daily_usage_data, projectFileFilter, sort_files_by_timestamp,
      stableSortBy, insertLe, get_earliest_timestamp, earliestStep, mapExcept,
      parse_file_records, parse_usage_line, extract_usage_tokens,
      create_unique_hash, calculate_cost_for_entry, dailyAggregates,
      dailyFoldStep, bucketKey, applyDaily, Aggregate.push_model,
      update_model_breakdowns, updateAssoc, Aggregate.zero,
      TokenStats.addUsage, TokenStats.zero, finalizeDailyBucket,
      toBreakdownList, toModelBreakdown, splitOnNul, filter_by_date_range,
      sort_by_date, optTsLe, extract_project_from_path,
      CLAUDE_PROJECTS_DIR_NAME]
  · simp [load_daily_usage_data, projectFileFilter, sort_files_by_timestamp,
      stableSortBy, insertLe, get_earliest_timestamp, earliestStep, mapExcept,
      parse_file_records, parse_usage_line, extract_usage_tokens,
      create_unique_hash, calculate_cost_for_entry, dailyAggregates,
      dailyFoldStep, bucketKey, applyDaily, Aggregate.push_model,
      update_model_breakdowns, updateAssoc, Aggregate.zero,
      TokenStats.addUsage, TokenStats.zero, finalizeDailyBucket,
      toBreakdownList, toModelBreakdown, splitOnNul, filter_by_date_range,
      sort_by_date, optTsLe, extract_project_from_path,
      CLAUDE_PROJECTS_DIR_NAME]

/-- Closed instance of the amended claim C2: a one-project, one-record run
satisfies the distinctness conditions, and two different map iteration orders
give identical output. -/
theorem claim_C2_map_order_determinism_witness :
    load_daily_usage_data (fun _ _ => 0) (fun _ => some "2024-01-01")
      (fun _ => some 1)
      ⟨CostMode.Display, SortOrder.Desc, true, none, none, none⟩ id id
      [⟨["projects", "p1", "a.jsonl"],
        some [some ⟨some "t1",
          some ⟨some ⟨some 1, some 0, none, none⟩, some "A", none⟩,
          none, none, none⟩]⟩] =
    load_daily_usage_data (fun _ _ => 0) (fun _ => some "2024-01-01")
      (fun _ => some 1)
      ⟨CostMode.Display, SortOrder.Desc, true, none, none, none⟩
      List.reverse id
      [⟨["projects", "p1", "a.jsonl"],
        some [some ⟨some "t1",
          some ⟨some ⟨some 1, some 0, none, none⟩, some "A", none⟩,
          none, none, none⟩]⟩] := by
  refine (claim_C2_map_order_determinism (fun _ _ => 0)
    (fun _ => some "2024-01-01") (fun _ => some 1)
    ⟨CostMode.Display, SortOrder.Desc, true, none, none, none⟩
    [⟨["projects", "p1", "a.jsonl"],
      some [some ⟨some "t1",
        some ⟨some ⟨some 1, some 0, none, none⟩, some "A", none⟩,
        none, none, none⟩]⟩]
    id List.reverse id List.reverse id id id id
    (fun l => List.Perm.refl l) (fun l => List.reverse_perm l)
    (fun l => List.Perm.refl l) (fun l => List.Perm.refl l)
    (fun l => List.Perm.refl l) (fun l => List.reverse_perm l)
    (fun l => List.Perm.refl l) (fun l => List.Perm.refl l)
    ?_ ?_ ?_ ?_).1
  · intro recs h
    have h2 : [[(⟨none, "2024-01-01", "p1", some "A", ⟨1, 0, 0, 0⟩, 0⟩ :
        ParsedRecord)]] = recs := by
      simpa [mapExcept, parse_file_records, parse_usage_line,
        extract_usage_tokens, create_unique_hash, calculate_cost_for_entry,
        sort_files_by_timestamp, stableSortBy, insertLe,
        get_earliest_timestamp, earliestStep, projectFileFilter,
        extract_project_from_path, CLAUDE_PROJECTS_DIR_NAME] using h
    subst h2
    simp [dailyAggregates, dailyFoldStep, bucketKey, applyDaily,
      Aggregate.push_model, update_model_breakdowns, updateAssoc,
      Aggregate.zero, TokenStats.addUsage, TokenStats.zero, splitOnNul]
  · intro recs h p hp
    have h2 : [[(⟨none, "2024-01-01", "p1", some "A", ⟨1, 0, 0, 0⟩, 0⟩ :
        ParsedRecord)]] = recs := by
      simpa [mapExcept, parse_file_records, parse_usage_line,
        extract_usage_tokens, create_unique_hash, calculate_cost_for_entry,
        sort_files_by_timestamp, stableSortBy, insertLe,
        get_earliest_timestamp, earliestStep, projectFileFilter,
        extract_project_from_path, CLAUDE_PROJECTS_DIR_NAME] using h
    subst h2
    simp only [List.flatten] at hp
    simp [dailyAggregates, dailyFoldStep, bucketKey, applyDaily,
      Aggregate.push_model, update_model_breakdowns, updateAssoc,
      Aggregate.zero, TokenStats.addUsage, TokenStats.zero] at hp
    subst hp
    simp
  · intro dl h
    have h2 : [(⟨"2024-01-01", 1, 0, 0, 0, 0, ["A"], [⟨"A", 1, 0, 0, 0, 0⟩],
        some "p1"⟩ : DailyUsage)] = dl := by
      simpa [load_daily_usage_data, projectFileFilter,
        sort_files_by_timestamp, stableSortBy, insertLe,
        get_earliest_timestamp, earliestStep, mapExcept, parse_file_records,
        parse_usage_line, extract_usage_tokens, create_unique_hash,
        calculate_cost_for_entry, dailyAggregates, dailyFoldStep, bucketKey,
        applyDaily, Aggregate.push_model, update_model_breakdowns,
        updateAssoc, Aggregate.zero, TokenStats.addUsage, TokenStats.zero,
        finalizeDailyBucket, toBreakdownList, toModelBreakdown, splitOnNul,
        filter_by_date_range, sort_by_date, optTsLe,
        extract_project_from_path, CLAUDE_PROJECTS_DIR_NAME] using h
    subst h2
    simp [monthlyAggregates, foldBuckets, monthKey, format_month,
      applyMonthly, update_model_breakdowns, updateAssoc,
      Aggregate.push_model, Aggregate.zero, TokenStats.addUsage,
      TokenStats.zero, splitOnNul,
      show ("2024-01-01" : String).length = 10 from by decide]
  · intro dl h p hp
    have h2 : [(⟨"2024-01-01", 1, 0, 0, 0, 0, ["A"], [⟨"A", 1, 0, 0, 0, 0⟩],
        some "p1"⟩ : DailyUsage)] = dl := by
      simpa [load_daily_usage_data, projectFileFilter,
        sort_files_by_timestamp, stableSortBy, insertLe,
        get_earliest_timestamp, earliestStep, mapExcept, parse_file_records,
        parse_usage_line, extract_usage_tokens, create_unique_hash,
        calculate_cost_for_entry, dailyAggregates, dailyFoldStep, bucketKey,
        applyDaily, Aggregate.push_model, update_model_breakdowns,
        updateAssoc, Aggregate.zero, TokenStats.addUsage, TokenStats.zero,
        finalizeDailyBucket, toBreakdownList, toModelBreakdown, splitOnNul,
        filter_by_date_range, sort_by_date, optTsLe,
        extract_project_from_path, CLAUDE_PROJECTS_DIR_NAME] using h
    subst h2
    simp [monthlyAggregates, foldBuckets, monthKey, format_month,
      applyMonthly, update_model_breakdowns, updateAssoc,
      Aggregate.push_model, Aggregate.zero, TokenStats.addUsage,
      TokenStats.zero,
      show ("2024-01-01" : String).length = 10 from by decide] at hp
    subst hp
    simp

/-! ## Monthly re-fold lemmas (towards claim C4) -/

theorem foldl_apply_measure {ε M : Type} [AddCommMonoid M]
    (g : ε → Aggregate → Aggregate) (proj : Aggregate → M) (projR : ε → M)
    (hstep : ∀ e a, proj (g e a) = proj a + projR e) (l : List ε) :
    ∀ (a : Aggregate),
    proj (l.foldl (fun acc e => g e acc) a) = proj a + (l.map projR).sum := by
  induction l with
  | nil => intro a; simp
  | cons e rest ih =>
    intro a
    rw [List.foldl_cons, ih (g e a), hstep, List.map_cons, List.sum_cons,
      add_assoc]

/-- Re-pushing a list of model names changes only `models_used`. -/
theorem foldl_push_model_fields (l : List String) : ∀ (a : Aggregate),
    (l.foldl (fun a m => a.push_model m) a).input_tokens = a.input_tokens
    ∧ (l.foldl (fun a m => a.push_model m) a).output_tokens = a.output_tokens
    ∧ (l.foldl (fun a m => a.push_model m) a).cache_creation_tokens =
        a.cache_creation_tokens
    ∧ (l.foldl (fun a m => a.push_model m) a).cache_read_tokens =
        a.cache_read_tokens
    ∧ (l.foldl (fun a m => a.push_model m) a).total_cost = a.total_cost
    ∧ (l.foldl (fun a m => a.push_model m) a).model_breakdowns =
        a.model_breakdowns := by
  induction l with
  | nil => intro a; exact ⟨rfl, rfl, rfl, rfl, rfl, rfl⟩
  | cons m rest ih =>
    intro a
    rw [List.foldl_cons]
    rcases ih (a.push_model m) with ⟨h1, h2, h3, h4, h5, h6⟩
    exact ⟨h1.trans (push_model_input_tokens a m),
      h2.trans (push_model_output_tokens a m),
      h3.trans (push_model_cache_creation_tokens a m),
      h4.trans (push_model_cache_read_tokens a m),
      h5.trans (push_model_total_cost a m),
      h6.trans (push_model_model_breakdowns a m)⟩

/-- The model-list insertion step, at the level of plain string lists. -/
def pushModelName (acc : List String) (m : String) : List String :=
  if m ∈ acc then acc else acc ++ [m]

theorem push_model_models_used_eq (a : Aggregate) (m : String) :
    (a.push_model m).models_used = pushModelName a.models_used m := by
  rw [push_model_models_used, pushModelName]

theorem foldl_push_model_models (l : List String) : ∀ (a : Aggregate),
    (l.foldl (fun a m => a.push_model m) a).models_used =
      l.foldl pushModelName a.models_used := by
  induction l with
  | nil => intro a; rfl
  | cons m rest ih =>
    intro a
    rw [List.foldl_cons, List.foldl_cons, ih (a.push_model m),
      push_model_models_used_eq]

/-- First occurrences of a list of names, in order: the specification's
insertion-ordered unique merge. -/
def firstOccurrences : List String → List String
  | [] => []
  | x :: xs => x :: firstOccurrences (xs.filter (fun y => decide (y ≠ x)))
  termination_by l => l.length
  decreasing_by
    simp only [List.length_cons]
    exact Nat.lt_succ_of_le (List.length_filter_le _ _)

theorem firstOccurrences_nil : firstOccurrences [] = [] := by
  rw [firstOccurrences.eq_def]

theorem firstOccurrences_cons (x : String) (xs : List String) :
    firstOccurrences (x :: xs) =
      x :: firstOccurrences (xs.filter (fun y => decide (y ≠ x))) := by
  rw [firstOccurrences.eq_def]

theorem foldl_pushModelName_eq (l : List String) : ∀ (acc : List String),
    l.foldl pushModelName acc =
      acc ++ firstOccurrences (l.filter (fun y => decide (y ∉ acc))) := by
  induction l with
  | nil => intro acc; simp [firstOccurrences_nil]
  | cons x xs ih =>
    intro acc
    rw [List.foldl_cons, List.filter_cons]
    by_cases hx : x ∈ acc
    · rw [show (decide (x ∉ acc)) = false from by simp [hx]]
      simp only [Bool.false_eq_true, if_false]
      rw [show pushModelName acc x = acc from by simp [pushModelName, hx]]
      exact ih acc
    · rw [show (decide (x ∉ acc)) = true from by simp [hx]]
      simp only [if_true]
      rw [show pushModelName acc x = acc ++ [x] from by
        simp [pushModelName, hx]]
      rw [ih (acc ++ [x]), firstOccurrences_cons]
      have hff : (xs.filter (fun y => decide (y ∉ acc))).filter
          (fun y => decide (y ≠ x)) =
          xs.filter (fun y => decide (y ∉ acc ++ [x])) := by
        rw [List.filter_filter]
        apply List.filter_congr
        intro y _
        by_cases hyx : y = x
        · subst hyx
          simp
        · by_cases hyacc : y ∈ acc <;> simp [hyx, hyacc]
      rw [hff, List.append_assoc, List.singleton_append]

theorem applyMonthly_input_tokens (e : DailyUsage) (a : Aggregate) :
    (applyMonthly e a).input_tokens = a.input_tokens + e.input_tokens := by
  unfold applyMonthly
  exact (foldl_push_model_fields e.models_used _).1

theorem applyMonthly_output_tokens (e : DailyUsage) (a : Aggregate) :
    (applyMonthly e a).output_tokens = a.output_tokens + e.output_tokens := by
  unfold applyMonthly
  exact (foldl_push_model_fields e.models_used _).2.1

theorem applyMonthly_cache_creation_tokens (e : DailyUsage) (a : Aggregate) :
    (applyMonthly e a).cache_creation_tokens =
      a.cache_creation_tokens + e.cache_creation_tokens := by
  unfold applyMonthly
  exact (foldl_push_model_fields e.models_used _).2.2.1

theorem applyMonthly_cache_read_tokens (e : DailyUsage) (a : Aggregate) :
    (applyMonthly e a).cache_read_tokens =
      a.cache_read_tokens + e.cache_read_tokens := by
  unfold applyMonthly
  exact (foldl_push_model_fields e.models_used _).2.2.2.1

theorem applyMonthly_total_cost (e : DailyUsage) (a : Aggregate) :
    (applyMonthly e a).total_cost = a.total_cost + e.total_cost := by
  unfold applyMonthly
  exact (foldl_push_model_fields e.models_used _).2.2.2.2.1

theorem applyMonthly_models_used (e : DailyUsage) (a : Aggregate) :
    (applyMonthly e a).models_used =
      e.models_used.foldl pushModelName a.models_used := by
  unfold applyMonthly
  exact foldl_push_model_models e.models_used _

theorem lookupA_bd_foldl (bs : List ModelBreakdown) (name : String) :
    ∀ (bd0 : List (String × TokenStats)),
    lookupA (bs.foldl
      (fun bd b => update_model_breakdowns bd b.model_name
        ⟨b.input_tokens, b.output_tokens, b.cache_creation_tokens,
          b.cache_read_tokens⟩ b.cost) bd0) name
    = (bs.filter (fun b => decide (b.model_name = name))).foldl
        (fun o b => some ((o.getD TokenStats.zero).addUsage
          ⟨b.input_tokens, b.output_tokens, b.cache_creation_tokens,
            b.cache_read_tokens⟩ b.cost))
        (lookupA bd0 name) := by
  induction bs with
  | nil => intro bd0; rfl
  | cons b rest ih =>
    intro bd0
    rw [List.foldl_cons, List.filter_cons]
    by_cases hb : b.model_name = name
    · rw [show (decide (b.model_name = name)) = true from decide_eq_true hb]
      simp only [if_true]
      rw [List.foldl_cons, ih]
      congr 1
      rw [show lookupA (update_model_breakdowns bd0 b.model_name
          ⟨b.input_tokens, b.output_tokens, b.cache_creation_tokens,
            b.cache_read_tokens⟩ b.cost) name =
          lookupA (updateAssoc bd0 b.model_name
            (fun s => s.addUsage ⟨b.input_tokens, b.output_tokens,
              b.cache_creation_tokens, b.cache_read_tokens⟩ b.cost)
            TokenStats.zero) name from rfl, hb]
      exact lookupA_updateAssoc_self bd0 name _ TokenStats.zero
    · rw [show (decide (b.model_name = name)) = false from by simp [hb]]
      simp only [Bool.false_eq_true, if_false]
      rw [ih]
      congr 1
      exact lookupA_updateAssoc_ne bd0 b.model_name name _ TokenStats.zero
        (fun hh => hb hh.symm)

theorem lookupA_applyMonthly (e : DailyUsage) (a : Aggregate) (name : String) :
    lookupA (applyMonthly e a).model_breakdowns name =
      (e.model_breakdowns.filter (fun b => decide (b.model_name = name))).foldl
        (fun o b => some ((o.getD TokenStats.zero).addUsage
          ⟨b.input_tokens, b.output_tokens, b.cache_creation_tokens,
            b.cache_read_tokens⟩ b.cost))
        (lookupA a.model_breakdowns name) := by
  unfold applyMonthly
  dsimp only
  rw [lookupA_bd_foldl]
  congr 1
  rw [(foldl_push_model_fields e.models_used _).2.2.2.2.2]

theorem lookupA_foldl_applyMonthly (es : List DailyUsage) (name : String) :
    ∀ (a : Aggregate),
    lookupA ((es.foldl (fun acc e => applyMonthly e acc) a).model_breakdowns)
        name =
      (es.flatMap (fun e => e.model_breakdowns.filter
        (fun b => decide (b.model_name = name)))).foldl
        (fun o b => some ((o.getD TokenStats.zero).addUsage
          ⟨b.input_tokens, b.output_tokens, b.cache_creation_tokens,
            b.cache_read_tokens⟩ b.cost))
        (lookupA a.model_breakdowns name) := by
  induction es with
  | nil => intro a; rfl
  | cons e rest ih =>
    intro a
    rw [List.foldl_cons, ih (applyMonthly e a), List.flatMap_cons,
      List.foldl_append, lookupA_applyMonthly]

theorem foldl_optStats_some (l : List ModelBreakdown) : ∀ (s : TokenStats),
    l.foldl (fun o b => some ((o.getD TokenStats.zero).addUsage
      ⟨b.input_tokens, b.output_tokens, b.cache_creation_tokens,
        b.cache_read_tokens⟩ b.cost)) (some s)
    = some (l.foldl (fun s b => s.addUsage
      ⟨b.input_tokens, b.output_tokens, b.cache_creation_tokens,
        b.cache_read_tokens⟩ b.cost) s) := by
  induction l with
  | nil => intro s; rfl
  | cons b rest ih =>
    intro s
    rw [List.foldl_cons, List.foldl_cons]
    exact ih _

theorem foldl_applyMonthly_models (es : List DailyUsage) : ∀ (a : Aggregate),
    (es.foldl (fun acc e => applyMonthly e acc) a).models_used =
      (es.flatMap (fun e => e.models_used)).foldl pushModelName
        a.models_used := by
  induction es with
  | nil => intro a; rfl
  | cons e rest ih =>
    intro a
    rw [List.foldl_cons, ih (applyMonthly e a), List.flatMap_cons,
      List.foldl_append, applyMonthly_models_used]

/-! ## String lemmas for bucket keys -/

theorem takeWhile_append_of_all {α : Type} (p : α → Bool) (l₁ l₂ : List α)
    (h : ∀ x ∈ l₁, p x = true) :
    (l₁ ++ l₂).takeWhile p = l₁ ++ l₂.takeWhile p := by
  induction l₁ with
  | nil => simp
  | cons x xs ih =>
    rw [List.cons_append, List.takeWhile_cons,
      h x (List.mem_cons_self x xs)]
    simp only [if_true]
    rw [ih (fun y hy => h y (List.mem_cons_of_mem x hy)), List.cons_append]

theorem dropWhile_append_of_all {α : Type} (p : α → Bool) (l₁ l₂ : List α)
    (h : ∀ x ∈ l₁, p x = true) :
    (l₁ ++ l₂).dropWhile p = l₂.dropWhile p := by
  induction l₁ with
  | nil => simp
  | cons x xs ih =>
    rw [List.cons_append, List.dropWhile_cons,
      h x (List.mem_cons_self x xs)]
    simp only [if_true]
    exact ih (fun y hy => h y (List.mem_cons_of_mem x hy))

theorem splitOnNul_nul_free (s : String) (h : ('\x00' : Char) ∉ s.data) :
    splitOnNul s = (s, none) := by
  unfold splitOnNul
  have hdw : s.data.dropWhile (fun c => decide (c ≠ '\x00')) = [] := by
    rw [List.dropWhile_eq_nil_iff]
    intro x hx
    simp only [decide_eq_true_eq]
    exact fun hc => h (hc ▸ hx)
  rw [hdw]

theorem splitOnNul_append (m proj : String) (h : ('\x00' : Char) ∉ m.data) :
    splitOnNul (m ++ "\x00" ++ proj) = (m, some proj) := by
  unfold splitOnNul
  have hdata : (m ++ "\x00" ++ proj).data =
      m.data ++ ('\x00' : Char) :: proj.data := by
    rw [String.data_append, String.data_append]
    rw [show ("\x00" : String).data = [('\x00' : Char)] from rfl]
    simp
  have hall : ∀ x ∈ m.data, (fun c => decide (c ≠ '\x00')) x = true := by
    intro x hx
    simp only [decide_eq_true_eq]
    exact fun hc => h (hc ▸ hx)
  rw [hdata, dropWhile_append_of_all _ _ _ hall,
    takeWhile_append_of_all _ _ _ hall]
  rw [List.dropWhile_cons, List.takeWhile_cons]
  simp

/-- Claim C4: `load_monthly_usage_data` is the daily run followed by the
re-fold `monthly_from_daily` (monthly results are derived from daily results,
never recomputed from raw files), and every monthly aggregate equals the
re-fold of its member daily entries: the month key is the 7-character
truncation of each member date, the four token sums and the total cost are the
sums over the members, `models_used` is the order-preserving union of the
member model lists, and each model's breakdown is the merge of the members'
breakdown rows for that model. -/
theorem claim_C4_monthly_refold
    (calcCost : UsageTokens → Option String → ℚ)
    (fmtDate : String → Option String) (parseTs : String → Option Int)
    (options : LoadOptions)
    (iterA iterAM : List (String × Aggregate) → List (String × Aggregate))
    (iterB iterBM : List (String × TokenStats) → List (String × TokenStats))
    (files : List FileData)
    (np : Bool) (daily : List DailyUsage) (k : String) (a : Aggregate)
    (h : (k, a) ∈ monthlyAggregates np daily)
    (hnul : ∀ e ∈ daily, ('\x00' : Char) ∉ e.date.data) :
    load_monthly_usage_data calcCost fmtDate parseTs options iterA iterB
        iterAM iterBM files
      = (load_daily_usage_data calcCost fmtDate parseTs options iterA iterB
          files).map
          (monthly_from_daily
            (options.group_by_project || options.project.isSome)
            options.order iterAM iterBM)
    ∧ daily.filter (fun e => decide (monthKey np e = some k)) ≠ []
    ∧ (∀ e ∈ daily.filter (fun e => decide (monthKey np e = some k)),
        format_month e.date = some (splitOnNul k).1)
    ∧ a.input_tokens = ((daily.filter
        (fun e => decide (monthKey np e = some k))).map
        (fun e => e.input_tokens)).sum
    ∧ a.output_tokens = ((daily.filter
        (fun e => decide (monthKey np e = some k))).map
        (fun e => e.output_tokens)).sum
    ∧ a.cache_creation_tokens = ((daily.filter
        (fun e => decide (monthKey np e = some k))).map
        (fun e => e.cache_creation_tokens)).sum
    ∧ a.cache_read_tokens = ((daily.filter
        (fun e => decide (monthKey np e = some k))).map
        (fun e => e.cache_read_tokens)).sum
    ∧ a.total_cost = ((daily.filter
        (fun e => decide (monthKey np e = some k))).map
        (fun e => e.total_cost)).sum
    ∧ a.models_used = firstOccurrences ((daily.filter
        (fun e => decide (monthKey np e = some k))).flatMap
        (fun e => e.models_used))
    ∧ ∀ name, lookupA a.model_breakdowns name =
        match (daily.filter
          (fun e => decide (monthKey np e = some k))).flatMap
          (fun e => e.model_breakdowns.filter
            (fun b => decide (b.model_name = name))) with
        | [] => none
        | c :: cs => some ((c :: cs).foldl
            (fun s b => s.addUsage
              ⟨b.input_tokens, b.output_tokens, b.cache_creation_tokens,
                b.cache_read_tokens⟩ b.cost) TokenStats.zero) := by
  obtain ⟨ha, hne⟩ := mem_foldBuckets_eq (monthKey np) applyMonthly daily k a h
  subst ha
  refine ⟨rfl, hne, ?_, ?_, ?_, ?_, ?_, ?_, ?_, ?_⟩
  · intro e he
    rw [List.mem_filter] at he
    have hk : monthKey np e = some k := of_decide_eq_true he.2
    unfold monthKey at hk
    cases hfm : format_month e.date with
    | none =>
      rw [hfm] at hk
      exact Option.noConfusion (show (none : Option String) = some k from hk)
    | some month =>
      rw [hfm] at hk
      have hk' : (if np = true then month ++ "\x00" ++ e.project.getD "unknown"
          else month) = k :=
        Option.some_inj.mp
          (show some (if np = true then
              month ++ "\x00" ++ e.project.getD "unknown" else month) = some k
            from hk)
      have hmonth : month.data = e.date.data.take 7 := by
        unfold format_month at hfm
        split at hfm
        · exact congrArg String.data (Option.some_inj.mp hfm).symm
        · exact Option.noConfusion hfm
      have hmnul : ('\x00' : Char) ∉ month.data := by
        rw [hmonth]
        exact fun hc => hnul e he.1 (List.take_subset 7 e.date.data hc)
      cases np with
      | false =>
        rw [if_neg Bool.false_ne_true] at hk'
        rw [← hk', splitOnNul_nul_free month hmnul]
      | true =>
        rw [if_pos rfl] at hk'
        rw [← hk',
          splitOnNul_append month (e.project.getD "unknown") hmnul]
  · rw [foldl_apply_measure applyMonthly (fun x => x.input_tokens)
      (fun e => e.input_tokens) applyMonthly_input_tokens]
    simp [Aggregate.zero]
  · rw [foldl_apply_measure applyMonthly (fun x => x.output_tokens)
      (fun e => e.output_tokens) applyMonthly_output_tokens]
    simp [Aggregate.zero]
  · rw [foldl_apply_measure applyMonthly (fun x => x.cache_creation_tokens)
      (fun e => e.cache_creation_tokens) applyMonthly_cache_creation_tokens]
    simp [Aggregate.zero]
  · rw [foldl_apply_measure applyMonthly (fun x => x.cache_read_tokens)
      (fun e => e.cache_read_tokens) applyMonthly_cache_read_tokens]
    simp [Aggregate.zero]
  · rw [foldl_apply_measure applyMonthly (fun x => x.total_cost)
      (fun e => e.total_cost) applyMonthly_total_cost]
    simp [Aggregate.zero]
  · rw [foldl_applyMonthly_models, foldl_pushModelName_eq,
      show Aggregate.zero.models_used = ([] : List String) from rfl,
      List.nil_append]
    congr 1
    exact List.filter_eq_self.mpr (fun x _ => by simp)
  · intro name
    rw [lookupA_foldl_applyMonthly]
    cases hflat : (daily.filter
        (fun e => decide (monthKey np e = some k))).flatMap
        (fun e => e.model_breakdowns.filter
          (fun b => decide (b.model_name = name))) with
    | nil => rfl
    | cons c cs =>
      show cs.foldl _ (some (TokenStats.zero.addUsage
        ⟨c.input_tokens, c.output_tokens, c.cache_creation_tokens,
          c.cache_read_tokens⟩ c.cost)) = _
      rw [foldl_optStats_some]
      rfl

/-- Closed instance of claim C4: one daily entry re-folded into its month
bucket. -/
theorem claim_C4_monthly_refold_witness :
    ("2024-01", applyMonthly
        ⟨"2024-01-01", 1, 2, 3, 4, 0, ["m"], [⟨"m", 1, 2, 3, 4, 0⟩], none⟩
        Aggregate.zero) ∈
      monthlyAggregates false
        [⟨"2024-01-01", 1, 2, 3, 4, 0, ["m"], [⟨"m", 1, 2, 3, 4, 0⟩], none⟩]
    ∧ (applyMonthly
        ⟨"2024-01-01", 1, 2, 3, 4, 0, ["m"], [⟨"m", 1, 2, 3, 4, 0⟩], none⟩
        Aggregate.zero).input_tokens =
      (([(⟨"2024-01-01", 1, 2, 3, 4, 0, ["m"], [⟨"m", 1, 2, 3, 4, 0⟩],
          none⟩ : DailyUsage)].filter
        (fun e => decide (monthKey false e = some "2024-01"))).map
        (fun e => e.input_tokens)).sum := by
  have hm : ("2024-01", applyMonthly
      (⟨"2024-01-01", 1, 2, 3, 4, 0, ["m"], [⟨"m", 1, 2, 3, 4, 0⟩],
        none⟩ : DailyUsage) Aggregate.zero) ∈
      monthlyAggregates false
        [⟨"2024-01-01", 1, 2, 3, 4, 0, ["m"], [⟨"m", 1, 2, 3, 4, 0⟩],
          none⟩] :=
    List.mem_singleton.mpr rfl
  refine ⟨hm, (claim_C4_monthly_refold (fun _ _ => 0) (fun _ => none)
    (fun _ => none) ⟨CostMode.Display, SortOrder.Desc, false, none, none, none⟩
    id id id id [] false
    [⟨"2024-01-01", 1, 2, 3, 4, 0, ["m"], [⟨"m", 1, 2, 3, 4, 0⟩], none⟩]
    "2024-01" _ hm ?_).2.2.2.1⟩
  intro e he
  rw [List.mem_singleton] at he
  subst he
  decide

/-- Closed instance of claim C9 at concrete paths. -/
theorem claim_C9_project_from_path_witness :
    extract_project_from_path ["home", "user", ".claude"] = "unknown"
    ∧ extract_project_from_path
        (["home", "user", ".claude"] ++ CLAUDE_PROJECTS_DIR_NAME :: ["proj1", "s1", "a.jsonl"]) =
        (match ["proj1", "s1", "a.jsonl"] with
         | [] => "unknown"
         | v :: _ => if v.data.all Char.isWhitespace then "unknown" else v) :=
  claim_C9_project_from_path ["home", "user", ".claude"]
    ["home", "user", ".claude"] ["proj1", "s1", "a.jsonl"]
    (by decide) (by decide)

end Ccost
